import Mathlib

/-!
Verification of the Schema-Driven Normalization, Comparison & Matching Engine
(backend/app/services of the competitive-edge-engine repository).

Shallow embedding conventions:
* Python values flowing through the engine are modelled by the inductive
  `Value` (None, int, float, bool, str, dict).  Python `float` is modelled by
  `Rat` with exact arithmetic; the special values `inf`/`nan` and scientific
  display notation are outside the model.  Python `int` is unbounded, as is
  `Int`.
* Python dicts holding product data are modelled by association lists
  (`Record`), with `getV` = first-match lookup (Python dict keys are unique)
  and `setKey` = Python dict assignment (value of the last write, position of
  the first).
* Python exception control flow is modelled with `Option`/`Except`.
-/

set_option maxRecDepth 4000

namespace CEE

/-- Model of the Python runtime values the engine manipulates. -/
inductive Value where
  | none : Value
  | int : Int → Value
  | float : Rat → Value
  | bool : Bool → Value
  | str : String → Value
  | dict : List (String × Value) → Value

/-- Record: a Python dict keyed by field name, as an association list. -/
abbrev Record := List (String × Value)

/-- First-match lookup in a string-keyed association list. -/
def alistGet {α : Type} : List (String × α) → String → Option α
  | [], _ => Option.none
  | (k, v) :: rest, key => if k = key then some v else alistGet rest key

/-- First-match association-list lookup, modelling Python dict indexing. -/
def getV (r : Record) (key : String) : Option Value := alistGet r key

/-- Membership test modelling Python `key in dict`. -/
def hasKey (r : Record) (k : String) : Bool := (getV r k).isSome

/-- Python `dict.get(key)`: the stored value, or `None` when absent. -/
def getPy (r : Record) (k : String) : Value := (getV r k).getD Value.none

/-- Python dict assignment `d[k] = v`: overwrite in place, else append. -/
def setKey {α : Type} : List (String × α) → String → α → List (String × α)
  | [], k, v => [(k, v)]
  | (k0, v0) :: rest, k, v =>
    if k0 = k then (k0, v) :: rest else (k0, v0) :: setKey rest k v

mutual
/-- Structural equality on values (Python `==` restricted to same-type
scalars); used for dict payload comparison. -/
def beqValue : Value → Value → Bool
  | .none, .none => true
  | .int a, .int b => a == b
  | .float a, .float b => a == b
  | .bool a, .bool b => a == b
  | .str a, .str b => a == b
  | .dict a, .dict b => beqEntries a b
  | _, _ => false

/-- Pairwise structural equality of dict entry lists. -/
def beqEntries : List (String × Value) → List (String × Value) → Bool
  | [], [] => true
  | (k, v) :: a, (l, w) :: b => k == l && beqValue v w && beqEntries a b
  | _, _ => false
end

/-- Numeric view of a value: Python treats bool/int/float as one numeric
tower for `==` and arithmetic (`True == 1`, `1 == 1.0`). -/
def valAsNum : Value → Option Rat
  | .int n => some (n : Rat)
  | .float q => some q
  | .bool b => some (if b then 1 else 0)
  | _ => Option.none

/-- Python `==` on engine values: numeric cross-type equality on the
bool/int/float tower, structural equality on strings, order-insensitive
key/value equality on dicts (payloads compared structurally), `None` equal
only to itself. -/
def pyEqVal (a b : Value) : Bool :=
  match valAsNum a, valAsNum b with
  | some x, some y => x == y
  | _, _ =>
    match a, b with
    | .none, .none => true
    | .str s, .str t => s == t
    | .dict l, .dict m =>
      l.length == m.length &&
        l.all fun p =>
          match getV m p.1 with
          | some w => beqValue p.2 w
          | Option.none => false
    | _, _ => false

/-- Python truthiness (`bool(v)` / `if v:`). -/
def pyTruthy : Value → Bool
  | .none => false
  | .int n => n != 0
  | .float q => q != 0
  | .bool b => b
  | .str s => s != ""
  | .dict l => !l.isEmpty

/-- Python `v is None`. -/
def isNoneV : Value → Bool
  | .none => true
  | _ => false

/-- Prefix test on character lists. -/
def isPrefixList : List Char → List Char → Bool
  | [], _ => true
  | _ :: _, [] => false
  | a :: as, b :: bs => a == b && isPrefixList as bs

/-- Substring containment on character lists (Python `needle in hay`). -/
def containsSub (hay needle : List Char) : Bool :=
  match hay with
  | [] => needle.isEmpty
  | _ :: rest => isPrefixList needle hay || containsSub rest needle

/-- Python `needle in hay` on strings. -/
def strContains (hay needle : String) : Bool := containsSub hay.toList needle.toList

/-- ASCII lower-casing of one character (the engine's unit and field-name
data is ASCII; full Unicode case-mapping is outside the model). -/
def lowerChar (c : Char) : Char :=
  if c.isUpper then Char.ofNat (c.toNat + 32) else c

/-- Python `s.lower()` (ASCII). -/
def strLower (s : String) : String := String.mk (s.toList.map lowerChar)

/-- Whitespace-stripping on character lists (Python `s.strip()`). -/
def trimChars (cs : List Char) : List Char :=
  ((cs.dropWhile Char.isWhitespace).reverse.dropWhile Char.isWhitespace).reverse

/-- Python `s.strip()`. -/
def strTrim (s : String) : String := String.mk (trimChars s.toList)

/-- Replacement scanner: replace every non-overlapping occurrence of the
pattern, scanning left to right (fuel bounds the recursion; it is always
called with enough fuel to scan the whole input). -/
def replaceFuel : Nat → List Char → List Char → List Char → List Char
  | 0, s, _, _ => s
  | fuel + 1, s, pat, rep =>
    match s with
    | [] => []
    | c :: rest =>
      if isPrefixList pat s && !pat.isEmpty then
        rep ++ replaceFuel fuel (s.drop pat.length) pat rep
      else c :: replaceFuel fuel rest pat rep

/-- Python `s.replace(pat, rep)`: all non-overlapping occurrences, left to
right (the degenerate empty pattern, unused by the engine, is identity
here). -/
def pyReplace (s pat rep : String) : String :=
  String.mk (replaceFuel (s.toList.length + 1) s.toList pat.toList rep.toList)

/-- Python `isinstance(v, int)`: true for ints and bools (bool is a subtype
of int in Python). -/
def isInstInt : Value → Bool
  | .int _ => true
  | .bool _ => true
  | _ => false

/-- Python `isinstance(v, (int, float))`: ints, bools and floats. -/
def isInstNum : Value → Bool
  | .int _ => true
  | .bool _ => true
  | .float _ => true
  | _ => false

/-- Python `isinstance(v, str)`. -/
def isInstStr : Value → Bool
  | .str _ => true
  | _ => false

/-- Python `isinstance(v, bool)`. -/
def isInstBool : Value → Bool
  | .bool _ => true
  | _ => false

/-- Numeric value of a list of decimal digit characters. -/
def natOfDigits (cs : List Char) : Nat :=
  cs.foldl (fun n c => n * 10 + (c.toNat - 48)) 0

/-- Parser for the body of a Python `int(...)` string literal:
optional sign followed by one or more digits (underscore separators are
outside the model). -/
def pyIntDigits : List Char → Option Int
  | [] => Option.none
  | cs =>
    if cs.all Char.isDigit then some (natOfDigits cs : Int) else Option.none

/-- Python `int(s)` on a string: strips whitespace, then an optional sign and
a digit run; anything else raises `ValueError` (modelled as `none`). -/
def pyIntStr (s : String) : Option Int :=
  match trimChars s.toList with
  | '+' :: rest => pyIntDigits rest
  | '-' :: rest => (pyIntDigits rest).map Int.neg
  | rest => pyIntDigits rest

/-- Unsigned decimal-literal parser: `digits [. digits*] | . digits+`,
optionally followed by an exponent part, returning the exact rational. -/
def pyFloatBody (cs : List Char) : Option Rat :=
  let ip := cs.takeWhile Char.isDigit
  let rest := cs.dropWhile Char.isDigit
  let withMantissa : Option (Rat × List Char) :=
    match rest with
    | d :: rest2 =>
      if d = '.' then
        let fp := rest2.takeWhile Char.isDigit
        let rest3 := rest2.dropWhile Char.isDigit
        if ip.isEmpty && fp.isEmpty then Option.none
        else
          some ((natOfDigits ip : Rat) + (natOfDigits fp : Rat) / (10 ^ fp.length : Nat),
            rest3)
      else if ip.isEmpty then Option.none
      else some ((natOfDigits ip : Rat), d :: rest2)
    | [] => if ip.isEmpty then Option.none else some ((natOfDigits ip : Rat), [])
  match withMantissa with
  | Option.none => Option.none
  | some (m, []) => some m
  | some (m, e :: rest4) =>
    if e = 'e' || e = 'E' then
      let signedExp : Option Int :=
        match rest4 with
        | s :: ds2 =>
          if s = '+' then pyIntDigits ds2
          else if s = '-' then (pyIntDigits ds2).map Int.neg
          else pyIntDigits (s :: ds2)
        | [] => Option.none
      match signedExp with
      | some k => some (m * (10 : Rat) ^ k)
      | Option.none => Option.none
    else Option.none

/-- Python `float(s)` on a string: strips whitespace, optional sign, then a
decimal literal ("inf"/"nan" are outside the rational model and rejected). -/
def pyFloatStr (s : String) : Option Rat :=
  match trimChars s.toList with
  | '+' :: rest => pyFloatBody rest
  | '-' :: rest => (pyFloatBody rest).map Neg.neg
  | rest => pyFloatBody rest

/-- Python `float(v)` call: numbers pass through (bool as 0/1), strings are
parsed, everything else raises `TypeError` (modelled as `none`). -/
def pyFloatCall : Value → Option Rat
  | .int n => some (n : Rat)
  | .float q => some q
  | .bool b => some (if b then 1 else 0)
  | .str s => pyFloatStr s
  | _ => Option.none

/-- Python `int(v)` call: ints pass through, bools become 0/1, floats
truncate toward zero, strings are parsed as integer literals, everything
else raises (modelled as `none`). -/
def pyIntCall : Value → Option Int
  | .int n => some n
  | .bool b => some (if b then 1 else 0)
  | .float q => some (Int.tdiv q.num (q.den : Int))
  | .str s => pyIntStr s
  | _ => Option.none

/-- Left-pad a digit string with zeros to the given width. -/
def padZeros (s : String) (k : Nat) : String :=
  String.mk (List.replicate (k - s.length) '0') ++ s

/-- Display form of a Python float under the rational model: integral values
render as "n.0"; rationals with a finite decimal expansion render exactly
(Python's shortest-roundtrip repr of a float literal agrees with the exact
expansion of the literal's rational value); other rationals (unreachable
from Python float data) fall back to "num/den". -/
def ratStr (q : Rat) : String :=
  if q.den = 1 then toString q.num ++ ".0"
  else
    match (List.range 40).find? (fun k => q.den ∣ 10 ^ (k + 1)) with
    | some k =>
      let e := k + 1
      let sign := if q.num < 0 then "-" else ""
      let scaled := q.num.natAbs * (10 ^ e / q.den)
      let ip := scaled / 10 ^ e
      let fp := scaled % 10 ^ e
      sign ++ toString ip ++ "." ++ padZeros (toString fp) e
    | Option.none => toString q.num ++ "/" ++ toString q.den

mutual
/-- Python `repr(v)`: like `str` but strings are quoted; dicts render as
brace-enclosed comma-separated `key: value` pairs with repr-ed parts
(string escaping inside repr is outside the model). -/
def pyRepr : Value → String
  | .none => "None"
  | .int n => toString n
  | .float q => ratStr q
  | .bool b => if b then "True" else "False"
  | .str s => "\x27" ++ s ++ "\x27"
  | .dict l => "\x7b" ++ pyReprEntries l ++ "\x7d"

/-- Comma-separated `repr(key): repr(value)` rendering of dict entries. -/
def pyReprEntries : List (String × Value) → String
  | [] => ""
  | [(k, v)] => "\x27" ++ k ++ "\x27" ++ ": " ++ pyRepr v
  | (k, v) :: rest => "\x27" ++ k ++ "\x27" ++ ": " ++ pyRepr v ++ ", " ++ pyReprEntries rest
end

/-- Python `str(v)`: identity on strings, `repr` otherwise. -/
def pyStr : Value → String
  | .str s => s
  | v => pyRepr v

/-- Leftmost match of the regex `(\d+)`: the first maximal digit run. -/
def findIntToken : List Char → Option (List Char)
  | [] => Option.none
  | c :: cs =>
    if c.isDigit then some (c :: cs.takeWhile Char.isDigit) else findIntToken cs

/-- Leftmost match of the regex `(\d+\.?\d*)`: the first maximal digit run,
optionally extended by a dot and a further digit run. -/
def findDecToken : List Char → Option (List Char)
  | [] => Option.none
  | c :: cs =>
    if c.isDigit then
      let ds := cs.takeWhile Char.isDigit
      match cs.dropWhile Char.isDigit with
      | d :: rest2 =>
        if d = '.' then some ((c :: ds) ++ '.' :: rest2.takeWhile Char.isDigit)
        else some (c :: ds)
      | [] => some (c :: ds)
    else findDecToken cs

namespace UnitConverter

/-- Conversion registry of unit_converter.py: (from_unit, to_unit) to
factor, in source order; float factors are modelled as exact rationals. -/
def UNIT_CONVERSIONS : List ((String × String) × Rat) := [
  (("gallons", "liters"), 3.78541),
  (("gal", "liters"), 3.78541),
  (("liters", "gallons"), 1 / 3.78541),
  (("L", "gallons"), 1 / 3.78541),
  (("liters", "gal"), 1 / 3.78541),
  (("L", "gal"), 1 / 3.78541),
  (("lbs", "kg"), 0.453592),
  (("pounds", "kg"), 0.453592),
  (("lb", "kg"), 0.453592),
  (("kg", "lbs"), 1 / 0.453592),
  (("kg", "pounds"), 1 / 0.453592),
  (("kg", "lb"), 1 / 0.453592),
  (("kilograms", "lbs"), 1 / 0.453592),
  (("kilograms", "pounds"), 1 / 0.453592),
  (("oz", "lbs"), 1 / 16.0),
  (("ounces", "lbs"), 1 / 16.0),
  (("lbs", "oz"), 16.0),
  (("pounds", "oz"), 16.0),
  (("inches", "cm"), 2.54),
  (("in", "cm"), 2.54),
  (("cm", "inches"), 1 / 2.54),
  (("cm", "in"), 1 / 2.54),
  (("centimeters", "inches"), 1 / 2.54),
  (("feet", "meters"), 0.3048),
  (("ft", "meters"), 0.3048),
  (("meters", "feet"), 1 / 0.3048),
  (("m", "feet"), 1 / 0.3048),
  (("meters", "ft"), 1 / 0.3048),
  (("kW", "W"), 1000.0),
  (("kilowatts", "W"), 1000.0),
  (("W", "kW"), 1 / 1000.0),
  (("watts", "kW"), 1 / 1000.0),
  (("USD", "USD"), 1.0),
  (("$", "USD"), 1.0),
  (("cents", "USD"), 1 / 100.0),
  (("USD", "cents"), 100.0)]

/-- Alias table of unit_converter.py, in source order. -/
def UNIT_ALIASES : List (String × String) := [
  ("gal", "gallons"),
  ("gallon", "gallons"),
  ("L", "liters"),
  ("liter", "liters"),
  ("litre", "liters"),
  ("lb", "lbs"),
  ("pound", "lbs"),
  ("pounds", "lbs"),
  ("kg", "kg"),
  ("kilogram", "kg"),
  ("kilograms", "kg"),
  ("oz", "oz"),
  ("ounce", "oz"),
  ("ounces", "oz"),
  ("in", "inches"),
  ("inch", "inches"),
  ("cm", "cm"),
  ("centimeter", "cm"),
  ("centimeters", "cm"),
  ("ft", "feet"),
  ("foot", "feet"),
  ("m", "meters"),
  ("meter", "meters"),
  ("metre", "meters"),
  ("W", "W"),
  ("watt", "W"),
  ("watts", "W"),
  ("kW", "kW"),
  ("kilowatt", "kW"),
  ("kilowatts", "kW"),
  ("$", "USD"),
  ("usd", "USD"),
  ("dollars", "USD"),
  ("dollar", "USD")]

/-- UnitConverter.normalize_unit: lower-case and strip, resolve through the
alias table (exact key, then case-insensitive scan), else pass through. -/
def normalize_unit (unit : String) : String :=
  if unit = "" then ""
  else
    let unit_lower := strTrim (strLower unit)
    match alistGet UNIT_ALIASES unit_lower with
    | some n => n
    | Option.none =>
      match UNIT_ALIASES.find? (fun p => unit_lower == strLower p.1) with
      | some p => p.2
      | Option.none => unit_lower

/-- Factor lookup in the conversion registry. -/
def convGet (a b : String) : Option Rat :=
  (UNIT_CONVERSIONS.find? (fun p => p.1.1 == a && p.1.2 == b)).map (·.2)

/-- UnitConverter.are_units_compatible. -/
def are_units_compatible (unit1 unit2 : String) : Bool :=
  let norm1 := normalize_unit unit1
  let norm2 := normalize_unit unit2
  norm1 == norm2 || (convGet norm1 norm2).isSome || (convGet norm2 norm1).isSome

/-- UnitConverter.convert: same normalized unit returns the value unchanged;
a registered direct factor multiplies; a registered reverse factor divides;
otherwise no conversion (None). -/
def convert (value : Rat) (from_unit to_unit : String) : Option Rat :=
  let norm_from := normalize_unit from_unit
  let norm_to := normalize_unit to_unit
  if norm_from = norm_to then some value
  else
    match convGet norm_from norm_to with
    | some f => some (value * f)
    | Option.none =>
      match convGet norm_to norm_from with
      | some f => some (value / f)
      | Option.none => Option.none

end UnitConverter

/-- Field data type (pydantic Literal in models/schema.py). -/
inductive FieldType where
  | text
  | integer
  | decimal
  | boolean
deriving DecidableEq, Repr

/-- Compare direction (pydantic Literal in models/schema.py). -/
inductive Direction where
  | lower
  | higher
deriving DecidableEq, Repr

/-- FieldDefinition of models/schema.py. -/
structure FieldDefinition where
  name : String
  type : FieldType
  unit : Option String := Option.none
  label : String := ""
  compareDirection : Direction := Direction.higher
  required : Bool := true
deriving DecidableEq

/-- MetricDefinition of models/schema.py. -/
structure MetricDefinition where
  name : String
  formula : String
  label : String := ""
  compareDirection : Direction := Direction.higher
  format : Option String := Option.none
deriving DecidableEq

/-- ProductSchema of models/schema.py. -/
structure ProductSchema where
  fields : List FieldDefinition
  metrics : List MetricDefinition := []

namespace SchemaValidator

/-- Error string for a missing required field. -/
def requiredFieldError (n : String) : String :=
  "Required field \x27" ++ n ++ "\x27 is missing"

/-- Error string emitted by the type-check loop for a field. -/
def fieldTypeErrorMsg (f : FieldDefinition) : String :=
  match f.type with
  | .integer => "Field \x27" ++ f.name ++ "\x27 must be an integer"
  | .decimal => "Field \x27" ++ f.name ++ "\x27 must be a decimal number"
  | .boolean => "Field \x27" ++ f.name ++ "\x27 must be a boolean"
  | .text => "Field \x27" ++ f.name ++ "\x27 must be a string"

/-- Type-conformance check of the second loop of
validate_data_against_schema: integers accept int instances (bools
included) or int()-coercible values; decimals accept numeric instances,
strings whose stripped form matches the numeric-extraction regex, or
float()-coercible values; booleans and text require exact instances. -/
def typeOk : FieldType → Value → Bool
  | .integer, v => if isInstInt v then true else (pyIntCall v).isSome
  | .decimal, v =>
    if isInstNum v then true
    else
      match v with
      | .str s => if (findDecToken (trimChars s.toList)).isSome then true else (pyFloatStr s).isSome
      | w => (pyFloatCall w).isSome
  | .boolean, v => isInstBool v
  | .text, v => isInstStr v

/-- SchemaValidator.validate_data_against_schema: required-field errors in
schema order, then type errors for present fields in schema order; returns
(is_valid, errors). -/
def validate_data_against_schema (data : Record) (schema : ProductSchema) :
    Bool × List String :=
  let requiredErrs := schema.fields.filterMap fun f =>
    if f.required && !hasKey data f.name then some (requiredFieldError f.name)
    else Option.none
  let typeErrs := schema.fields.filterMap fun f =>
    match getV data f.name with
    | some v => if typeOk f.type v then Option.none else some (fieldTypeErrorMsg f)
    | Option.none => Option.none
  let errors := requiredErrs ++ typeErrs
  (errors.isEmpty, errors)

/-- Dict payloads of shape value/unit collapse to their "value" entry
before normalization. -/
def unwrapValueDict : Value → Value
  | .dict l =>
    match getV l "value" with
    | some w => w
    | Option.none => .dict l
  | v => v

/-- Integer coercion of the normalize_data integer branch: strings go
through digit-run extraction with an int() fallback, everything else
through int(). -/
def normIntCoerce : Value → Option Int
  | .str s =>
    match findIntToken (trimChars s.toList) with
    | some tok => some (natOfDigits tok : Int)
    | Option.none => pyIntStr s
  | v => pyIntCall v

/-- Decimal coercion of the normalize_data decimal branch: strings go
through numeric-token extraction with a float() fallback, everything else
through float(); float() applied to a bare extracted token (digits with an
optional dot) is exactly the unsigned-literal parser. -/
def normDecCoerce : Value → Option Rat
  | .str s =>
    match findDecToken (trimChars s.toList) with
    | some tok => pyFloatBody tok
    | Option.none => pyFloatStr s
  | v => pyFloatCall v

/-- Value written by the normalize_data loop for one schema field, if any:
for a field present in the raw record, unwrap value/unit dicts, keep None
only for required fields, coerce to the declared type, and on coercion
failure use None for required fields and nothing for optional ones. -/
def normEntry (data : Record) (f : FieldDefinition) : Option Value :=
  match getV data f.name with
  | Option.none => Option.none
  | some v0 =>
    match unwrapValueDict v0 with
    | .none => if f.required then some .none else Option.none
    | v =>
      let coerced : Option Value :=
        match f.type with
        | .integer => (normIntCoerce v).map Value.int
        | .decimal => (normDecCoerce v).map Value.float
        | .boolean => some (.bool (pyTruthy v))
        | .text => some (.str (pyStr v))
      match coerced with
      | some w => some w
      | Option.none => if f.required then some .none else Option.none

/-- Loop body of SchemaValidator.normalize_data for one schema field:
write the field's normalized value into the accumulating dict, or leave
the dict unchanged when the field is skipped. -/
def normalizeFieldStep (data : Record) (normalized : Record)
    (f : FieldDefinition) : Record :=
  match normEntry data f with
  | some w => setKey normalized f.name w
  | Option.none => normalized

/-- SchemaValidator.normalize_data: walk the schema fields in order,
building the normalized dict. -/
def normalize_data (data : Record) (schema : ProductSchema) : Record :=
  schema.fields.foldl (normalizeFieldStep data) []

end SchemaValidator

/-- Character predicate of the regex word class used by the formula
identifier pattern. -/
def isWordChar (c : Char) : Bool := c.isAlpha || c.isDigit || c == '_'

/-- Scanner collecting maximal word-character runs; the first argument is
the remaining input, the second the current run in reverse. -/
def wordRunsAux : List Char → List Char → List String
  | [], run => if run.isEmpty then [] else [String.mk run.reverse]
  | c :: cs, run =>
    if isWordChar c then wordRunsAux cs (c :: run)
    else if run.isEmpty then wordRunsAux cs []
    else String.mk run.reverse :: wordRunsAux cs []

/-- Maximal word-character runs of a string, in order (the candidate
matches of a word-bounded regex). -/
def wordRuns (cs : List Char) : List String := wordRunsAux cs []

namespace MetricCalculator

/-- Error class of metric evaluation: the explicit non-numeric-field
ValueError raised during substitution, or the ValueError wrapping any
failure of the guarded evaluation step. -/
inductive EvalErr where
  | nonNumericField (field : String)
  | evalFailure (reason : String)
deriving DecidableEq, Repr

/-- Characters admitted by the post-substitution whitelist. -/
def allowedChars : List Char := "0123456789+-*/.() ".toList

/-- Matches of the identifier regex on a formula: maximal word runs whose
first character is a letter or underscore (runs starting with a digit have
no word boundary before their first letter, so they never match). -/
def identifiersIn (formula : String) : List String :=
  (wordRuns formula.toList).filter fun t =>
    match t.toList with
    | c :: _ => c.isAlpha || c == '_'
    | [] => false

/-- Substitution loop of evaluate_formula: each identifier present in the
data record is string-replaced (all occurrences) by the display form of its
numeric value; a present but non-float()-coercible value raises the
non-numeric-field error; identifiers absent from the record are left in
place. -/
def substituteFields : List String → String → Record → Except EvalErr String
  | [], formula, _ => .ok formula
  | t :: ts, formula, data =>
    match getV data t with
    | Option.none => substituteFields ts formula data
    | some v =>
      if isInstNum v then substituteFields ts (pyReplace formula t (pyStr v)) data
      else
        match pyFloatCall v with
        | some q => substituteFields ts (pyReplace formula t (pyStr (.float q))) data
        | Option.none => .error (.nonNumericField t)

/-- Drop leading spaces (the only whitespace the whitelist admits). -/
def skipSpaces (cs : List Char) : List Char := cs.dropWhile (· == ' ')

/-- Numeric literal parser for the guarded arithmetic language:
digits with an optional fractional part, or a bare fractional part. -/
def parseNumber (cs : List Char) : Option (Rat × List Char) :=
  let ip := cs.takeWhile Char.isDigit
  let rest := cs.dropWhile Char.isDigit
  match rest with
  | '.' :: rest2 =>
    let fp := rest2.takeWhile Char.isDigit
    let rest3 := rest2.dropWhile Char.isDigit
    if ip.isEmpty && fp.isEmpty then Option.none
    else
      some ((natOfDigits ip : Rat) + (natOfDigits fp : Rat) / ((10 : Rat) ^ fp.length),
        rest3)
  | _ => if ip.isEmpty then Option.none else some ((natOfDigits ip : Rat), rest)

/-- Python power on rationals: integral exponents only in the model, with
the zero-to-a-negative-power ZeroDivisionError mapped to failure. -/
def ratPow (base expv : Rat) : Option Rat :=
  if expv.den = 1 then
    if base = 0 && expv.num < 0 then Option.none
    else some (base ^ expv.num)
  else Option.none

mutual
/-- Additive level of the arithmetic evaluator modelling Python eval on the
whitelisted character set. -/
def parseExpr : Nat → List Char → Option (Rat × List Char)
  | 0, _ => Option.none
  | fuel + 1, cs =>
    match parseTerm fuel cs with
    | some (v, rest) => parseExprRest fuel v rest
    | Option.none => Option.none

/-- Left-associative chain of additions and subtractions. -/
def parseExprRest : Nat → Rat → List Char → Option (Rat × List Char)
  | 0, _, _ => Option.none
  | fuel + 1, acc, cs =>
    match skipSpaces cs with
    | '+' :: rest =>
      match parseTerm fuel rest with
      | some (v, rest2) => parseExprRest fuel (acc + v) rest2
      | Option.none => Option.none
    | '-' :: rest =>
      match parseTerm fuel rest with
      | some (v, rest2) => parseExprRest fuel (acc - v) rest2
      | Option.none => Option.none
    | _ => some (acc, cs)

/-- Multiplicative level. -/
def parseTerm : Nat → List Char → Option (Rat × List Char)
  | 0, _ => Option.none
  | fuel + 1, cs =>
    match parseUnary fuel cs with
    | some (v, rest) => parseTermRest fuel v rest
    | Option.none => Option.none

/-- Left-associative chain of multiplications and true divisions, with
division by zero failing like ZeroDivisionError. -/
def parseTermRest : Nat → Rat → List Char → Option (Rat × List Char)
  | 0, _, _ => Option.none
  | fuel + 1, acc, cs =>
    match skipSpaces cs with
    | '*' :: rest =>
      match parseUnary fuel rest with
      | some (v, rest2) => parseTermRest fuel (acc * v) rest2
      | Option.none => Option.none
    | '/' :: rest =>
      match parseUnary fuel rest with
      | some (v, rest2) =>
        if v = 0 then Option.none else parseTermRest fuel (acc / v) rest2
      | Option.none => Option.none
    | _ => some (acc, cs)

/-- Unary plus and minus (binding looser than power, as in Python). -/
def parseUnary : Nat → List Char → Option (Rat × List Char)
  | 0, _ => Option.none
  | fuel + 1, cs =>
    match skipSpaces cs with
    | '-' :: rest =>
      match parseUnary fuel rest with
      | some (v, rest2) => some (-v, rest2)
      | Option.none => Option.none
    | '+' :: rest => parseUnary fuel rest
    | _ => parsePower fuel cs

/-- Power level: an atom optionally raised to a unary expression
(right-associative, as in Python). -/
def parsePower : Nat → List Char → Option (Rat × List Char)
  | 0, _ => Option.none
  | fuel + 1, cs =>
    match parseAtom fuel cs with
    | some (b, rest) =>
      match skipSpaces rest with
      | '*' :: '*' :: rest2 =>
        match parseUnary fuel rest2 with
        | some (e, rest3) =>
          match ratPow b e with
          | some v => some (v, rest3)
          | Option.none => Option.none
        | Option.none => Option.none
      | _ => some (b, rest)
    | Option.none => Option.none

/-- Atoms: parenthesised expressions and numeric literals. -/
def parseAtom : Nat → List Char → Option (Rat × List Char)
  | 0, _ => Option.none
  | fuel + 1, cs =>
    match skipSpaces cs with
    | '(' :: rest =>
      match parseExpr fuel rest with
      | some (v, rest2) =>
        match skipSpaces rest2 with
        | ')' :: rest3 => some (v, rest3)
        | _ => Option.none
      | Option.none => Option.none
    | rest => parseNumber rest
end

/-- Arithmetic evaluation of a whitelisted formula string, modelling the
Python eval call on the guarded language (a parse failure stands for the
SyntaxError/NameError/ZeroDivisionError family, all of which the source
wraps into ValueError). -/
def evalArith (s : String) : Option Rat :=
  match parseExpr (4 * s.length + 8) s.toList with
  | some (v, rest) => if (skipSpaces rest).isEmpty then some v else Option.none
  | Option.none => Option.none

/-- MetricCalculator.evaluate_formula: substitute identifier tokens with
their numeric values, reject the result unless every character is in the
whitelist, then evaluate arithmetically; every failure is a ValueError
(modelled by EvalErr). -/
def evaluate_formula (formula : String) (data : Record) : Except EvalErr Rat :=
  let tokens := identifiersIn formula
  match substituteFields tokens formula data with
  | .error e => .error e
  | .ok safe_formula =>
    if !(safe_formula.toList.all fun c => allowedChars.contains c) then
      .error (.evalFailure "Formula contains invalid characters")
    else
      match evalArith safe_formula with
      | some r => .ok r
      | Option.none => .error (.evalFailure "eval")

/-- MetricCalculator.calculate_metric. -/
def calculate_metric (metric : MetricDefinition) (data : Record) : Except EvalErr Rat :=
  evaluate_formula metric.formula data

end MetricCalculator

/-- Entry of the per-field / per-metric comparison dictionaries produced by
ComparatorService.compare. -/
structure CompEntry where
  user : Value
  competitor : Value
  difference : Option Rat
  advantage : String
  alert : Option String

/-- Result shape of ComparatorService.compare. -/
structure Comparison where
  fields : List (String × CompEntry)
  metrics : List (String × CompEntry)

namespace ComparatorService

/-- Comparison entry computed by the field loop of
ComparatorService.compare for one field, if any: fields missing or None in
either record are skipped; numeric fields get difference and directional
advantage/alert when both values coerce to float, and a graceful
no-difference "equal" entry otherwise; text/boolean fields get an
exact-match entry with no alert. -/
def compareFieldEntry (user_data competitor_data : Record)
    (field : FieldDefinition) : Option CompEntry :=
  let u := getPy user_data field.name
  let c := getPy competitor_data field.name
  if isNoneV u || isNoneV c then Option.none
  else
    if field.type = FieldType.integer ∨ field.type = FieldType.decimal then
      match pyFloatCall u, pyFloatCall c with
      | some user_num, some competitor_num =>
        let difference := competitor_num - user_num
        let advAlert : String × Option String :=
          match field.compareDirection with
          | .lower =>
            if competitor_num < user_num then ("competitor", some "red")
            else if competitor_num > user_num then ("user", Option.none)
            else ("equal", Option.none)
          | .higher =>
            if competitor_num > user_num then ("competitor", some "yellow")
            else if competitor_num < user_num then ("user", Option.none)
            else ("equal", Option.none)
        some ⟨u, c, some difference, advAlert.1, advAlert.2⟩
      | _, _ => some ⟨u, c, Option.none, "equal", Option.none⟩
    else
      some ⟨u, c, Option.none, if pyEqVal u c then "equal" else "different", Option.none⟩

/-- Field loop of ComparatorService.compare over one field: write the
field's comparison entry into the fields dict, or skip. -/
def compareFieldStep (user_data competitor_data : Record)
    (acc : List (String × CompEntry)) (field : FieldDefinition) :
    List (String × CompEntry) :=
  match compareFieldEntry user_data competitor_data field with
  | some e => setKey acc field.name e
  | Option.none => acc

/-- Comparison entry computed by the metric loop of
ComparatorService.compare for one metric, if any: a metric whose
evaluation raises for either record yields nothing; otherwise the
directional advantage applies, with a competitor advantage always tagged
yellow. -/
def compareMetricEntry (user_data competitor_data : Record)
    (metric : MetricDefinition) : Option CompEntry :=
  match MetricCalculator.calculate_metric metric user_data,
      MetricCalculator.calculate_metric metric competitor_data with
  | .ok user_metric_value, .ok competitor_metric_value =>
    let difference := competitor_metric_value - user_metric_value
    let advAlert : String × Option String :=
      match metric.compareDirection with
      | .lower =>
        if competitor_metric_value < user_metric_value then ("competitor", some "yellow")
        else if competitor_metric_value > user_metric_value then ("user", Option.none)
        else ("equal", Option.none)
      | .higher =>
        if competitor_metric_value > user_metric_value then ("competitor", some "yellow")
        else if competitor_metric_value < user_metric_value then ("user", Option.none)
        else ("equal", Option.none)
    some ⟨.float user_metric_value, .float competitor_metric_value, some difference,
      advAlert.1, advAlert.2⟩
  | _, _ => Option.none

/-- Metric loop of ComparatorService.compare over one metric: write the
metric's comparison entry into the metrics dict, or skip. -/
def compareMetricStep (user_data competitor_data : Record)
    (acc : List (String × CompEntry)) (metric : MetricDefinition) :
    List (String × CompEntry) :=
  match compareMetricEntry user_data competitor_data metric with
  | some e => setKey acc metric.name e
  | Option.none => acc

/-- ComparatorService.compare: field-by-field comparison followed by
best-effort metric comparison. -/
def compare (user_data competitor_data : Record) (schema : ProductSchema) :
    Comparison :=
  ⟨schema.fields.foldl (compareFieldStep user_data competitor_data) [],
    schema.metrics.foldl (compareMetricStep user_data competitor_data) []⟩

end ComparatorService

namespace MatcherService

/-- Per-field (similarity, weight) pairs collected by
_calculate_spec_similarity, in schema order: numeric fields contribute a
relative-distance similarity when both values are float()-coercible,
non-numeric fields an exact-match similarity; required fields weigh 2. -/
def collectSims (user_data candidate_data : Record) (schema : ProductSchema) :
    List (Rat × Rat) :=
  schema.fields.foldl
    (fun acc field =>
      let u := getPy user_data field.name
      let c := getPy candidate_data field.name
      if isNoneV u || isNoneV c then acc
      else
        if field.type = FieldType.integer ∨ field.type = FieldType.decimal then
          match pyFloatCall u, pyFloatCall c with
          | some user_num, some candidate_num =>
            let similarity :=
              if user_num = 0 then (if candidate_num = 0 then (1 : Rat) else 0)
              else max 0 (1 - |candidate_num - user_num| / |user_num|)
            acc ++ [(similarity, if field.required then (2 : Rat) else 1)]
          | _, _ => acc
        else
          acc ++ [((if pyEqVal u c then (1 : Rat) else 0),
            if field.required then (2 : Rat) else 1)])
    []

/-- MatcherService._calculate_spec_similarity: weighted average of the
collected similarities, 0.0 when nothing is comparable. -/
def _calculate_spec_similarity (user_data candidate_data : Record)
    (schema : ProductSchema) : Rat :=
  if schema.fields.isEmpty then 0
  else
    let sims := collectSims user_data candidate_data schema
    if sims.isEmpty then 0
    else
      let weighted_sum := (sims.map fun p => p.1 * p.2).sum
      let total_weight := (sims.map fun p => p.2).sum
      if total_weight > 0 then weighted_sum / total_weight else 0

/-- Confidence blend of MatcherService.calculate_confidence_score; the
semantic similarity is produced by the external embedding/LLM collaborator
and enters the model as a parameter. -/
def calculate_confidence_score (spec_similarity semantic_similarity : Rat) : Rat :=
  0.6 * spec_similarity + 0.4 * semantic_similarity

end MatcherService

/-- First-occurrence deduplication; models both the distinct-element count
of Python sets and the (implementation-defined) iteration order of small
sets, fixed here as first-occurrence order. -/
def dedupFirst (l : List String) : List String :=
  l.foldl (fun acc x => if acc.contains x then acc else acc ++ [x]) []

/-- One comparison_results entry consumed by the alert calculator:
a dict with listing_id and a ComparatorService comparison. -/
structure ListingComparison where
  listing_id : String
  comparison : Comparison

/-- One price_history entry: listing id (a missing or None id is modelled
as the falsy empty string), timestamp, and the recorded data dict. -/
structure PriceRecord where
  listing_id : String
  recorded_at : String
  data : Record

namespace AlertCalculatorService

/-- Price extraction of calculate_summary: probe the keys price/Price/PRICE
in order, the last present key winning (the source loop has no break). -/
def priceOf (data : Record) : Value :=
  ["price", "Price", "PRICE"].foldl
    (fun acc k =>
      match getV data k with
      | some v => v
      | Option.none => acc)
    Value.none

/-- Red-alert classification step of calculate_summary over one field
entry: a red alert on a price-named field extends price_drops, a red alert
on any other field extends spec_disadvantages. -/
def scanRedStep (listing_id : String) (a : List String × List String)
    (p : String × CompEntry) : List String × List String :=
  if p.2.alert = some "red" then
    if strContains (strLower p.1) "price" then (a.1 ++ [listing_id], a.2)
    else (a.1, a.2 ++ [listing_id])
  else a

/-- Yellow-alert step of calculate_summary over one field or metric entry:
a yellow alert extends spec_disadvantages. -/
def scanYellowStep (listing_id : String) (a : List String × List String)
    (p : String × CompEntry) : List String × List String :=
  if p.2.alert = some "yellow" then (a.1, a.2 ++ [listing_id]) else a

/-- Per-result body of the comparison-scanning pass: red field alerts,
then yellow field alerts, then yellow metric alerts. -/
def scanResultStep (acc : List String × List String) (result : ListingComparison) :
    List String × List String :=
  let fields := result.comparison.fields
  let acc1 := fields.foldl (scanRedStep result.listing_id) acc
  let acc2 := fields.foldl (scanYellowStep result.listing_id) acc1
  result.comparison.metrics.foldl (scanYellowStep result.listing_id) acc2

/-- Comparison-scanning pass of calculate_summary: accumulate
(price_drops, spec_disadvantages) listing-id lists; a red field alert
counts as a price drop when the field name contains "price"
(case-insensitively) and as a spec disadvantage otherwise; yellow field
alerts and yellow metric alerts count as spec disadvantages. -/
def scanComparisons (comparison_results : List ListingComparison) :
    List String × List String :=
  comparison_results.foldl scanResultStep ([], [])

/-- Price-history trend pass of calculate_summary: per listing with at
least two history points (sorted by recorded_at), compare first and last
recorded price; strictly increasing extends price_increases, strictly
decreasing extends price_drops unless the listing is already there. -/
def scanTrends (price_history : List PriceRecord)
    (start : List String × List String) : List String × List String :=
  let ids := dedupFirst (price_history.filterMap fun r =>
    if r.listing_id ≠ "" then some r.listing_id else Option.none)
  ids.foldl
    (fun acc lid =>
      let history := price_history.filter (fun r => r.listing_id = lid)
      if history.length < 2 then acc
      else
        let sorted := history.mergeSort (fun a b => a.recorded_at ≤ b.recorded_at)
        match sorted.head?, sorted.getLast? with
        | some first_record, some last_record =>
          let first_price := priceOf first_record.data
          let last_price := priceOf last_record.data
          if pyTruthy first_price && pyTruthy last_price then
            match pyFloatCall first_price, pyFloatCall last_price with
            | some fp, some lp =>
              if lp > fp then (acc.1, acc.2 ++ [lid])
              else if lp < fp then
                if acc.1.contains lid then acc else (acc.1 ++ [lid], acc.2)
              else acc
            | _, _ => acc
          else acc
        | _, _ => acc)
    start

/-- Count plus percentage-change cell of the dashboard summary. -/
structure CountChange where
  count : Nat
  percentage_change : Rat

/-- Per-listing alert block of the dashboard summary. -/
structure ListingAlert where
  listing_id : String
  alerts : List String
  severity : String

/-- Dashboard summary returned by calculate_summary. -/
structure Summary where
  price_drops : CountChange
  spec_disadvantages : CountChange
  price_increases : CountChange
  listing_alerts : List ListingAlert

/-- Label step of _get_alerts_for_listing over one field entry: every red
field alert is labelled price_drop (regardless of the field name), yellow
field alerts are labelled spec_disadvantage. -/
def alertFieldLabelStep (a : List String) (p : String × CompEntry) : List String :=
  if p.2.alert = some "red" then a ++ ["price_drop"]
  else if p.2.alert = some "yellow" then a ++ ["spec_disadvantage"]
  else a

/-- Label step of _get_alerts_for_listing over one metric entry. -/
def alertMetricLabelStep (a : List String) (p : String × CompEntry) : List String :=
  if p.2.alert = some "yellow" then a ++ ["spec_disadvantage"] else a

/-- Per-result body of _get_alerts_for_listing. -/
def alertResultStep (listing_id : String) (acc : List String)
    (result : ListingComparison) : List String :=
  if result.listing_id ≠ listing_id then acc
  else
    result.comparison.metrics.foldl alertMetricLabelStep
      (result.comparison.fields.foldl alertFieldLabelStep acc)

/-- AlertCalculatorService._get_alerts_for_listing: distinct alert labels
for one listing. -/
def _get_alerts_for_listing (listing_id : String)
    (comparison_results : List ListingComparison) : List String :=
  dedupFirst (comparison_results.foldl (alertResultStep listing_id) [])

/-- AlertCalculatorService._calculate_severity. -/
def _calculate_severity (listing_id : String)
    (comparison_results : List ListingComparison) : String :=
  let alerts := _get_alerts_for_listing listing_id comparison_results
  if alerts.contains "price_drop" && alerts.contains "spec_disadvantage" then "high"
  else if alerts.contains "price_drop" || alerts.contains "spec_disadvantage" then "medium"
  else "low"

/-- AlertCalculatorService.calculate_summary. -/
def calculate_summary (comparison_results : List ListingComparison)
    (price_history : List PriceRecord) : Summary :=
  let fromComparisons := scanComparisons comparison_results
  let trends := scanTrends price_history (fromComparisons.1, [])
  let price_drop_count := (dedupFirst trends.1).length
  let spec_disadvantage_count := (dedupFirst fromComparisons.2).length
  let price_increase_count := (dedupFirst trends.2).length
  let total_listings :=
    (dedupFirst (comparison_results.map (·.listing_id))).length
  let pct := fun (count : Nat) =>
    if total_listings > 0 then (count : Rat) / (total_listings : Rat) * 100 else 0
  { price_drops := ⟨price_drop_count, -(pct price_drop_count)⟩
    spec_disadvantages := ⟨spec_disadvantage_count, pct spec_disadvantage_count⟩
    price_increases := ⟨price_increase_count, pct price_increase_count⟩
    listing_alerts :=
      (dedupFirst (comparison_results.map (·.listing_id))).map fun lid =>
        ⟨lid, _get_alerts_for_listing lid comparison_results,
          _calculate_severity lid comparison_results⟩ }

end AlertCalculatorService

namespace AIExtractorService

/-- Sentinel values that disqualify an extracted product name (the Python
membership test uses ==). -/
def isNameSentinel (v : Value) : Bool :=
  [Value.str "null", Value.str "none", Value.str "unknown", Value.str "n/a",
    Value.none].any (fun s => pyEqVal v s)

/-- Name-restoring step of extract_from_content (lines after
normalize_data): a truthy, non-sentinel name value captured from the raw
extraction is written back into the normalized record; the HTML
title-scraping fallback of the other branch consumes crawled page content
and is outside this model (a no-op here). -/
def finalizeExtractedName (name_value : Value) (normalized_data : Record) : Record :=
  if pyTruthy name_value && !(isNameSentinel name_value) then
    setKey normalized_data "name" (.str (strTrim (pyStr name_value)))
  else normalized_data

/-- Tail of AIExtractorService.extract_from_content: normalize the
(preprocessed) extraction record against the schema, then restore the name
captured from the raw extraction before preprocessing. -/
def extractFromContentTail (name_value : Value) (extracted_data : Record)
    (schema : ProductSchema) : Record :=
  finalizeExtractedName name_value (SchemaValidator.normalize_data extracted_data schema)

end AIExtractorService

/-- Error test on a metric-evaluation outcome. -/
def isErrorB : Except MetricCalculator.EvalErr Rat → Bool
  | .error _ => true
  | .ok _ => false

/-- Python `==` on two data dicts: equal sizes and every key of the first
present in the second with a ==-equal value. -/
def recordsEqB (a b : Record) : Bool :=
  a.length == b.length &&
    a.all fun p =>
      match getV b p.1 with
      | some w => pyEqVal p.2 w
      | Option.none => false

mutual
/-- Well-formedness of a model value as a Python runtime value: every dict
nested inside has pairwise-distinct keys (Python dicts cannot hold
duplicate keys; duplicate-keyed association lists are artifacts of the
model). -/
def valueWF : Value → Bool
  | .dict l => entriesWF l
  | _ => true

/-- Well-formedness of dict entries: distinct keys, well-formed values. -/
def entriesWF : List (String × Value) → Bool
  | [] => true
  | (k, v) :: rest => valueWF v && !(alistGet rest k).isSome && entriesWF rest
end

/-- Well-formedness of a record: all stored values are well-formed. -/
def recordWF (r : Record) : Bool := r.all fun p => valueWF p.2

/-- Listing has some red field alert in its comparisons (the
classification _get_alerts_for_listing actually uses for the price_drop
label, ignoring the field name). -/
def hasRedFieldAlert (listing_id : String)
    (comparison_results : List ListingComparison) : Bool :=
  comparison_results.any fun r =>
    r.listing_id == listing_id &&
      r.comparison.fields.any fun p => p.2.alert == some "red"

/-- Listing has some yellow field or metric alert in its comparisons. -/
def hasYellowAlert (listing_id : String)
    (comparison_results : List ListingComparison) : Bool :=
  comparison_results.any fun r =>
    r.listing_id == listing_id &&
      (r.comparison.fields.any (fun p => p.2.alert == some "yellow") ||
        r.comparison.metrics.any fun p => p.2.alert == some "yellow")

/-- Listing has a red alert on a field whose name contains "price"
case-insensitively (the price-drop classification of the summary counts
and of the specification). -/
def hasRedPriceFieldAlert (listing_id : String)
    (comparison_results : List ListingComparison) : Bool :=
  comparison_results.any fun r =>
    r.listing_id == listing_id &&
      r.comparison.fields.any fun p =>
        p.2.alert == some "red" && strContains (strLower p.1) "price"

/-- Listing has a spec-disadvantage alert in the specification's
classification: a red alert on a non-price-named field, or any yellow
field or metric alert. -/
def hasSpecDisadvantageAlert (listing_id : String)
    (comparison_results : List ListingComparison) : Bool :=
  comparison_results.any fun r =>
    r.listing_id == listing_id &&
      (r.comparison.fields.any
          (fun p => p.2.alert == some "red" && !(strContains (strLower p.1) "price")) ||
        r.comparison.fields.any (fun p => p.2.alert == some "yellow") ||
        r.comparison.metrics.any fun p => p.2.alert == some "yellow")

/-- Advantage/alert table for numeric fields as the specification states
it, written from the spec text for comparison against the source-derived
ComparatorService.compare (refinement check of claim C2). -/
def specAdvAlert (dir : Direction) (user competitor : Rat) : String × Option String :=
  match dir with
  | .lower =>
    if competitor < user then ("competitor", some "red")
    else if competitor > user then ("user", Option.none)
    else ("equal", Option.none)
  | .higher =>
    if competitor > user then ("competitor", some "yellow")
    else if competitor < user then ("user", Option.none)
    else ("equal", Option.none)


theorem alistGet_setKey_self {α : Type} (l : List (String × α)) (k : String) (v : α) :
    alistGet (setKey l k v) k = some v := by
  induction l with
  | nil => simp [setKey, alistGet]
  | cons p rest ih =>
    obtain ⟨k0, v0⟩ := p
    by_cases h : k0 = k
    · subst h; simp [setKey, alistGet]
    · simp [setKey, alistGet, h, ih]

theorem alistGet_setKey_ne {α : Type} (l : List (String × α)) (k k2 : String) (v : α)
    (h : k2 ≠ k) : alistGet (setKey l k2 v) k = alistGet l k := by
  induction l with
  | nil => simp [setKey, alistGet, h]
  | cons p rest ih =>
    obtain ⟨k0, v0⟩ := p
    by_cases h0 : k0 = k2
    · subst h0; simp [setKey, alistGet, h]
    · simp [setKey, alistGet, h0, ih]

theorem setKey_of_get_none {α : Type} (l : List (String × α)) (k : String) (v : α)
    (h : alistGet l k = Option.none) : setKey l k v = l ++ [(k, v)] := by
  induction l with
  | nil => rfl
  | cons p rest ih =>
    obtain ⟨k0, v0⟩ := p
    by_cases h0 : k0 = k
    · subst h0; simp [alistGet] at h
    · simp only [alistGet, if_neg h0] at h
      simp [setKey, h0, ih h]

theorem alistGet_append {α : Type} (a b : List (String × α)) (k : String) :
    alistGet (a ++ b) k = (alistGet a k).or (alistGet b k) := by
  induction a with
  | nil => simp [alistGet]
  | cons p rest ih =>
    obtain ⟨k0, v0⟩ := p
    by_cases h : k0 = k
    · subst h; simp [alistGet]
    · simp [alistGet, h, ih]

theorem foldl_write_get_of_ne {α β : Type} (f : List (String × α) → β → List (String × α))
    (key : β → String) (ent : β → Option α)
    (hstep : ∀ a b, f a b =
      match ent b with
      | some v => setKey a (key b) v
      | Option.none => a)
    (l : List β) (acc : List (String × α)) (k : String)
    (h : ∀ b ∈ l, key b ≠ k) :
    alistGet (l.foldl f acc) k = alistGet acc k := by
  induction l generalizing acc with
  | nil => rfl
  | cons b rest ih =>
    rw [List.foldl_cons, hstep]
    have hb : key b ≠ k := h b (by simp)
    have hrest : ∀ b2 ∈ rest, key b2 ≠ k := fun b2 hb2 => h b2 (by simp [hb2])
    cases hent : ent b with
    | none => exact ih acc hrest
    | some v => rw [ih _ hrest, alistGet_setKey_ne _ _ _ _ hb]

theorem foldl_write_get_mem {α β : Type} (f : List (String × α) → β → List (String × α))
    (key : β → String) (ent : β → Option α)
    (hstep : ∀ a b, f a b =
      match ent b with
      | some v => setKey a (key b) v
      | Option.none => a)
    (l : List β) (acc : List (String × α)) (b0 : β)
    (hb : b0 ∈ l) (hn : (l.map key).Nodup) :
    alistGet (l.foldl f acc) (key b0) =
      match ent b0 with
      | some v => some v
      | Option.none => alistGet acc (key b0) := by
  induction l generalizing acc with
  | nil => cases hb
  | cons b rest ih =>
    have hn2 := hn
    rw [List.map_cons, List.nodup_cons] at hn2
    rw [List.foldl_cons, hstep]
    rcases List.mem_cons.mp hb with hb0 | hb0
    · subst hb0
      have hnot : ∀ b2 ∈ rest, key b2 ≠ key b0 := by
        intro b2 hb2 hcontra
        exact hn2.1 (hcontra ▸ List.mem_map_of_mem key hb2)
      cases hent : ent b0 with
      | none => exact foldl_write_get_of_ne f key ent hstep rest acc _ hnot
      | some v =>
        rw [foldl_write_get_of_ne f key ent hstep rest _ _ hnot, alistGet_setKey_self]
    · have hne : key b ≠ key b0 := by
        intro hcontra
        exact hn2.1 (hcontra ▸ List.mem_map_of_mem key hb0)
      cases hent : ent b with
      | none => exact ih _ hb0 hn2.2
      | some v =>
        rw [ih _ hb0 hn2.2]
        cases ent b0 with
        | none => simp only; rw [alistGet_setKey_ne _ _ _ _ hne]
        | some w => rfl

theorem foldl_write_eq_append {α β : Type} (f : List (String × α) → β → List (String × α))
    (key : β → String) (ent : β → Option α)
    (hstep : ∀ a b, f a b =
      match ent b with
      | some v => setKey a (key b) v
      | Option.none => a)
    (l : List β) (acc : List (String × α))
    (hn : (l.map key).Nodup)
    (hdisj : ∀ b ∈ l, alistGet acc (key b) = Option.none) :
    l.foldl f acc = acc ++ l.filterMap fun b => (ent b).map fun v => (key b, v) := by
  induction l generalizing acc with
  | nil => simp
  | cons b rest ih =>
    have hn2 := hn
    rw [List.map_cons, List.nodup_cons] at hn2
    rw [List.foldl_cons, hstep]
    cases hent : ent b with
    | none =>
      dsimp only
      rw [ih acc hn2.2 fun b2 hb2 => hdisj b2 (by simp [hb2])]
      simp [List.filterMap_cons, hent]
    | some v =>
      dsimp only
      rw [setKey_of_get_none _ _ _ (hdisj b (by simp))]
      rw [ih (acc ++ [(key b, v)]) hn2.2 ?_]
      · simp [List.filterMap_cons, hent]
      · intro b2 hb2
        rw [alistGet_append, hdisj b2 (by simp [hb2])]
        have hne : key b ≠ key b2 := by
          intro hcontra
          exact hn2.1 (hcontra ▸ List.mem_map_of_mem key hb2)
        simp [alistGet, hne]

theorem normalize_data_get (data : Record) (s : ProductSchema) (f : FieldDefinition)
    (hf : f ∈ s.fields) (hn : (s.fields.map FieldDefinition.name).Nodup) :
    getV (SchemaValidator.normalize_data data s) f.name = SchemaValidator.normEntry data f := by
  unfold SchemaValidator.normalize_data getV
  rw [foldl_write_get_mem (SchemaValidator.normalizeFieldStep data) FieldDefinition.name
    (SchemaValidator.normEntry data)
    (fun a b => by
      unfold SchemaValidator.normalizeFieldStep
      cases SchemaValidator.normEntry data b <;> rfl) s.fields [] f hf hn]
  cases SchemaValidator.normEntry data f <;> rfl

theorem normalize_data_eq_filterMap (data : Record) (s : ProductSchema)
    (hn : (s.fields.map FieldDefinition.name).Nodup) :
    SchemaValidator.normalize_data data s =
      s.fields.filterMap fun f =>
        (SchemaValidator.normEntry data f).map fun v => (f.name, v) := by
  unfold SchemaValidator.normalize_data
  rw [foldl_write_eq_append (SchemaValidator.normalizeFieldStep data) FieldDefinition.name
    (SchemaValidator.normEntry data)
    (fun a b => by
      unfold SchemaValidator.normalizeFieldStep
      cases SchemaValidator.normEntry data b <;> rfl) s.fields [] hn
    (fun b hb => rfl)]
  rfl

theorem compare_fields_get (user_data competitor_data : Record) (s : ProductSchema)
    (f : FieldDefinition) (hf : f ∈ s.fields)
    (hn : (s.fields.map FieldDefinition.name).Nodup) :
    alistGet (ComparatorService.compare user_data competitor_data s).fields f.name =
      ComparatorService.compareFieldEntry user_data competitor_data f := by
  show alistGet (s.fields.foldl (ComparatorService.compareFieldStep user_data competitor_data) [])
    f.name = _
  rw [foldl_write_get_mem (ComparatorService.compareFieldStep user_data competitor_data)
    FieldDefinition.name (ComparatorService.compareFieldEntry user_data competitor_data)
    (fun a b => by
      unfold ComparatorService.compareFieldStep
      cases ComparatorService.compareFieldEntry user_data competitor_data b <;> rfl)
    s.fields [] f hf hn]
  cases ComparatorService.compareFieldEntry user_data competitor_data f <;> rfl

theorem validate_errors_nil_iff (data : Record) (s : ProductSchema) :
    (SchemaValidator.validate_data_against_schema data s).2 = [] ↔
      (∀ f ∈ s.fields, f.required → hasKey data f.name = true) ∧
      (∀ f ∈ s.fields, ∀ v, getV data f.name = some v →
        SchemaValidator.typeOk f.type v = true) := by
  unfold SchemaValidator.validate_data_against_schema
  dsimp only
  rw [List.append_eq_nil, List.filterMap_eq_nil_iff, List.filterMap_eq_nil_iff]
  constructor
  · rintro ⟨h1, h2⟩
    refine ⟨fun f hf hreq => ?_, fun f hf v hv => ?_⟩
    · have h := h1 f hf
      cases hk : hasKey data f.name
      · rw [hreq, hk] at h
        simp at h
      · rfl
    · have h := h2 f hf
      rw [hv] at h
      dsimp only at h
      cases hty : SchemaValidator.typeOk f.type v
      · rw [hty] at h
        simp at h
      · rfl
  · rintro ⟨h1, h2⟩
    refine ⟨fun f hf => ?_, fun f hf => ?_⟩
    · cases hreq : f.required
      · simp [hreq]
      · simp [hreq, h1 f hf hreq]
    · cases hv : getV data f.name with
      | none => rfl
      | some v => simp [h2 f hf v hv]

theorem foldl_write_get_of_ent_none {α β : Type}
    (f : List (String × α) → β → List (String × α))
    (key : β → String) (ent : β → Option α)
    (hstep : ∀ a b, f a b =
      match ent b with
      | some v => setKey a (key b) v
      | Option.none => a)
    (l : List β) (acc : List (String × α)) (k : String)
    (h : ∀ b ∈ l, key b = k → ent b = Option.none) :
    alistGet (l.foldl f acc) k = alistGet acc k := by
  induction l generalizing acc with
  | nil => rfl
  | cons b rest ih =>
    rw [List.foldl_cons, hstep]
    have hrest : ∀ b2 ∈ rest, key b2 = k → ent b2 = Option.none :=
      fun b2 hb2 => h b2 (by simp [hb2])
    cases hent : ent b with
    | none => exact ih acc hrest
    | some v =>
      have hne : key b ≠ k := by
        intro hk
        rw [h b (by simp) hk] at hent
        cases hent
      rw [ih _ hrest, alistGet_setKey_ne _ _ _ _ hne]

/-- Amended C2: for a numeric schema field present and non-None in both
records, with both values float()-coercible, the comparison entry carries
difference = competitor − user and the advantage/alert of the
specification's directional table. -/
theorem compare_numeric_directional
    (user_data competitor_data : Record) (schema : ProductSchema)
    (f : FieldDefinition) (hf : f ∈ schema.fields)
    (hn : (schema.fields.map FieldDefinition.name).Nodup)
    (ht : f.type = FieldType.integer ∨ f.type = FieldType.decimal)
    (hu : isNoneV (getPy user_data f.name) = false)
    (hc : isNoneV (getPy competitor_data f.name) = false)
    (un cn : Rat)
    (hqu : pyFloatCall (getPy user_data f.name) = some un)
    (hqc : pyFloatCall (getPy competitor_data f.name) = some cn) :
    alistGet (ComparatorService.compare user_data competitor_data schema).fields f.name =
      some ⟨getPy user_data f.name, getPy competitor_data f.name, some (cn - un),
        (specAdvAlert f.compareDirection un cn).1,
        (specAdvAlert f.compareDirection un cn).2⟩ := by
  rw [compare_fields_get user_data competitor_data schema f hf hn]
  unfold ComparatorService.compareFieldEntry
  dsimp only
  rw [hu, hc]
  rw [if_neg (by simp)]
  rw [if_pos ht, hqu, hqc]
  dsimp only
  cases f.compareDirection <;> dsimp only [specAdvAlert]

def fieldPriceLowerW : FieldDefinition :=
  { name := "price", type := .decimal, compareDirection := .lower }

def fieldWattHigherW : FieldDefinition :=
  { name := "wattage", type := .integer, compareDirection := .higher }

def schemaPriceW : ProductSchema := { fields := [fieldPriceLowerW] }

def schemaWattW : ProductSchema := { fields := [fieldWattHigherW] }

/-- Witness for C2 at both spec instances: user 100 vs competitor 80 under
"lower" gives (competitor, red); user 100 vs competitor 120 under "higher"
gives (competitor, yellow). -/
theorem compare_numeric_directional_witness :
    ((fieldPriceLowerW ∈ schemaPriceW.fields ∧
        (schemaPriceW.fields.map FieldDefinition.name).Nodup ∧
        isNoneV (getPy [("price", Value.float 100)] "price") = false ∧
        pyFloatCall (getPy [("price", Value.float 100)] "price") = some 100) ∧
      alistGet (ComparatorService.compare [("price", Value.float 100)]
          [("price", Value.float 80)] schemaPriceW).fields "price" =
        some ⟨Value.float 100, Value.float 80, some (-20), "competitor", some "red"⟩) ∧
    alistGet (ComparatorService.compare [("wattage", Value.int 100)]
        [("wattage", Value.int 120)] schemaWattW).fields "wattage" =
      some ⟨Value.int 100, Value.int 120, some 20, "competitor", some "yellow"⟩ := by
  refine ⟨⟨⟨by decide, by decide, rfl, rfl⟩, ?_⟩, ?_⟩
  · refine (compare_numeric_directional [("price", Value.float 100)]
      [("price", Value.float 80)] schemaPriceW fieldPriceLowerW (by decide) (by decide)
      (Or.inr rfl) rfl rfl 100 80 rfl rfl).trans ?_
    norm_num [fieldPriceLowerW, specAdvAlert, getPy, getV, alistGet]
  · refine (compare_numeric_directional [("wattage", Value.int 100)]
      [("wattage", Value.int 120)] schemaWattW fieldWattHigherW (by decide) (by decide)
      (Or.inl rfl) rfl rfl 100 120 rfl rfl).trans ?_
    norm_num [fieldWattHigherW, specAdvAlert, getPy, getV, alistGet]

/-- C3: a formula whose post-substitution text contains a character outside
the whitelist is rejected with the invalid-characters ValueError; the
guarded evaluation step is never reached (the result is the rejection
error, not an evaluation outcome). -/
theorem evaluate_formula_rejects_invalid_chars
    (formula : String) (data : Record) (st : String)
    (hsub : MetricCalculator.substituteFields (MetricCalculator.identifiersIn formula)
      formula data = .ok st)
    (hbad : (st.toList.all fun c => MetricCalculator.allowedChars.contains c) = false) :
    MetricCalculator.evaluate_formula formula data =
      .error (.evalFailure "Formula contains invalid characters") := by
  unfold MetricCalculator.evaluate_formula
  dsimp only
  rw [hsub]
  dsimp only
  rw [hbad]
  rfl

/-- Witness for C3 at the specification's injection example. -/
theorem evaluate_formula_rejects_invalid_chars_witness :
    (MetricCalculator.substituteFields
        (MetricCalculator.identifiersIn "price; import os") "price; import os"
        [("price", Value.int 10)] = .ok "10; import os" ∧
      (("10; import os").toList.all fun c =>
        MetricCalculator.allowedChars.contains c) = false) ∧
    MetricCalculator.evaluate_formula "price; import os" [("price", Value.int 10)] =
      .error (.evalFailure "Formula contains invalid characters") :=
  ⟨⟨rfl, by decide⟩,
    evaluate_formula_rejects_invalid_chars "price; import os" [("price", Value.int 10)]
      "10; import os" rfl (by decide)⟩

/-- C6: a metric whose formula evaluation fails for either record (for
every schema metric carrying that name) is omitted from the metrics
section, and the compare result is otherwise complete: its fields section
is exactly the field-by-field comparison. -/
theorem compare_omits_failing_metric
    (user_data competitor_data : Record) (schema : ProductSchema)
    (m : MetricDefinition) (_hm : m ∈ schema.metrics)
    (hfail : ∀ m2 ∈ schema.metrics, m2.name = m.name →
      isErrorB (MetricCalculator.calculate_metric m2 user_data) = true ∨
      isErrorB (MetricCalculator.calculate_metric m2 competitor_data) = true) :
    alistGet (ComparatorService.compare user_data competitor_data schema).metrics m.name =
      Option.none ∧
    (ComparatorService.compare user_data competitor_data schema).fields =
      schema.fields.foldl (ComparatorService.compareFieldStep user_data competitor_data) [] := by
  constructor
  · show alistGet (schema.metrics.foldl
      (ComparatorService.compareMetricStep user_data competitor_data) []) m.name = _
    have hnone : ∀ m2 ∈ schema.metrics, m2.name = m.name →
        ComparatorService.compareMetricEntry user_data competitor_data m2 = Option.none := by
      intro m2 hm2 hname
      rcases hfail m2 hm2 hname with hbad | hbad <;>
        (unfold ComparatorService.compareMetricEntry
         unfold isErrorB at hbad
         revert hbad
         cases MetricCalculator.calculate_metric m2 user_data <;>
           cases MetricCalculator.calculate_metric m2 competitor_data <;> simp)
    rw [foldl_write_get_of_ent_none
      (ComparatorService.compareMetricStep user_data competitor_data)
      MetricDefinition.name
      (ComparatorService.compareMetricEntry user_data competitor_data)
      (fun a b => by
        unfold ComparatorService.compareMetricStep
        cases ComparatorService.compareMetricEntry user_data competitor_data b <;> rfl)
      schema.metrics [] m.name hnone]
    rfl
  · rfl

def metricEffW : MetricDefinition := { name := "efficiency", formula := "price / wattage" }

def schemaMetricW : ProductSchema :=
  { fields := [], metrics := [metricEffW] }

/-- Witness for C6: a metric referencing a field absent from both records
fails to evaluate and is omitted from the comparison. -/
theorem compare_omits_failing_metric_witness :
    (metricEffW ∈ schemaMetricW.metrics ∧
      isErrorB (MetricCalculator.calculate_metric metricEffW
        [("price", Value.int 100)]) = true) ∧
    alistGet (ComparatorService.compare [("price", Value.int 100)]
        [("price", Value.int 90)] schemaMetricW).metrics "efficiency" = Option.none :=
  ⟨⟨by decide, rfl⟩,
    (compare_omits_failing_metric [("price", Value.int 100)] [("price", Value.int 90)]
      schemaMetricW metricEffW (by decide)
      (fun m2 hm2 _ => by
        rw [List.mem_singleton.mp hm2]
        exact Or.inl rfl)).1⟩

def schemaNoNameX : ProductSchema :=
  { fields := [{ name := "wattage", type := FieldType.integer }] }

/-- Counterexample to C9 as stated: normalize_data keeps only schema
fields, so a raw record whose "name" is not a schema field loses it — the
normalized output is empty and has no "name" entry. -/
theorem normalize_drops_name_counterexample :
    getV (SchemaValidator.normalize_data
      [("name", Value.str "Acme Grill 3000")] schemaNoNameX) "name" = Option.none ∧
    SchemaValidator.normalize_data
      [("name", Value.str "Acme Grill 3000")] schemaNoNameX = [] :=
  ⟨rfl, rfl⟩

/-- Amended C9: it is the extraction pipeline (extract_from_content), not
normalize_data, that preserves the product name: after normalization it
writes the name captured from the raw extraction back into the output,
whenever that name is truthy and not a null-like sentinel. -/
theorem extract_tail_restores_name
    (name_value : Value) (extracted_data : Record) (schema : ProductSchema)
    (h1 : pyTruthy name_value = true)
    (h2 : AIExtractorService.isNameSentinel name_value = false) :
    getV (AIExtractorService.extractFromContentTail name_value extracted_data schema)
        "name" = some (.str (strTrim (pyStr name_value))) := by
  unfold AIExtractorService.extractFromContentTail AIExtractorService.finalizeExtractedName
  rw [h1, h2]
  rw [if_pos (by simp)]
  exact alistGet_setKey_self _ _ _

/-- Witness for the amended C9 on a concrete extraction. -/
theorem extract_tail_restores_name_witness :
    (pyTruthy (Value.str " Acme Grill 3000 ") = true ∧
      AIExtractorService.isNameSentinel (Value.str " Acme Grill 3000 ") = false) ∧
    getV (AIExtractorService.extractFromContentTail (Value.str " Acme Grill 3000 ")
        [("name", Value.str " Acme Grill 3000 ")] schemaNoNameX) "name" =
      some (.str "Acme Grill 3000") := by
  refine ⟨⟨rfl, by decide⟩, ?_⟩
  refine (extract_tail_restores_name (Value.str " Acme Grill 3000 ")
    [("name", Value.str " Acme Grill 3000 ")] schemaNoNameX rfl (by decide)).trans ?_
  rfl

/-- C10: a Python bool stored under an integer-typed schema field passes
the type check of validate_data_against_schema (the check is
isinstance(value, int), and bool is a subtype of int), and normalize_data
coerces it with int() to 1 or 0. -/
theorem integer_field_accepts_bool
    (f : FieldDefinition) (hty : f.type = FieldType.integer) (b : Bool)
    (data : Record) (schema : ProductSchema) (hf : f ∈ schema.fields)
    (hn : (schema.fields.map FieldDefinition.name).Nodup)
    (hv : getV data f.name = some (.bool b)) :
    SchemaValidator.typeOk f.type (.bool b) = true ∧
    getV (SchemaValidator.normalize_data data schema) f.name =
      some (.int (if b then 1 else 0)) := by
  constructor
  · rw [hty]
    cases b <;> rfl
  · rw [normalize_data_get data schema f hf hn]
    unfold SchemaValidator.normEntry
    rw [hv, hty]
    cases b <;> rfl

def fieldIntBoolW : FieldDefinition := { name := "count", type := .integer }

def schemaIntBoolW : ProductSchema := { fields := [fieldIntBoolW] }

/-- Witness for C10 at a concrete record, with the end-to-end validation
outcome computed as well. -/
theorem integer_field_accepts_bool_witness :
    (fieldIntBoolW.type = FieldType.integer ∧ fieldIntBoolW ∈ schemaIntBoolW.fields ∧
      (schemaIntBoolW.fields.map FieldDefinition.name).Nodup ∧
      getV [("count", Value.bool true)] "count" = some (.bool true)) ∧
    (SchemaValidator.typeOk fieldIntBoolW.type (.bool true) = true ∧
      getV (SchemaValidator.normalize_data [("count", Value.bool true)] schemaIntBoolW)
        "count" = some (.int 1)) ∧
    (SchemaValidator.validate_data_against_schema [("count", Value.bool true)]
      schemaIntBoolW).2 = [] := by
  refine ⟨⟨rfl, by decide, by decide, rfl⟩, ?_, rfl⟩
  have h := integer_field_accepts_bool fieldIntBoolW rfl true
    [("count", Value.bool true)] schemaIntBoolW (by decide) (by decide) rfl
  exact ⟨h.1, h.2.trans (by norm_num)⟩

theorem convert_roundtrip_cases (a b : String) (x : Rat)
    (h : UnitConverter.normalize_unit a = UnitConverter.normalize_unit b ∨
      (UnitConverter.normalize_unit a ≠ UnitConverter.normalize_unit b ∧
        ((∃ f, UnitConverter.convGet (UnitConverter.normalize_unit a)
            (UnitConverter.normalize_unit b) = some f ∧ f ≠ 0 ∧
            (UnitConverter.convGet (UnitConverter.normalize_unit b)
                (UnitConverter.normalize_unit a) = Option.none ∨
              ∃ g, UnitConverter.convGet (UnitConverter.normalize_unit b)
                (UnitConverter.normalize_unit a) = some g ∧ f * g = 1)) ∨
          (UnitConverter.convGet (UnitConverter.normalize_unit a)
              (UnitConverter.normalize_unit b) = Option.none ∧
            ∃ g, UnitConverter.convGet (UnitConverter.normalize_unit b)
              (UnitConverter.normalize_unit a) = some g ∧ g ≠ 0)))) :
    ∃ y, UnitConverter.convert x a b = some y ∧
      UnitConverter.convert y b a = some x := by
  rcases h with heq | ⟨hne, hcase⟩
  · refine ⟨x, ?_, ?_⟩
    · unfold UnitConverter.convert
      rw [if_pos heq]
    · unfold UnitConverter.convert
      rw [if_pos heq.symm]
  · have hne2 : ¬ (UnitConverter.normalize_unit b = UnitConverter.normalize_unit a) :=
      fun hh => hne hh.symm
    rcases hcase with ⟨f, hf, hf0, hrev⟩ | ⟨hnone, g, hg, hg0⟩
    · refine ⟨x * f, ?_, ?_⟩
      · unfold UnitConverter.convert
        rw [if_neg hne, hf]
      · unfold UnitConverter.convert
        rw [if_neg hne2]
        rcases hrev with hnone | ⟨g, hg, hfg⟩
        · rw [hnone]
          dsimp only
          rw [hf]
          dsimp only
          congr 1
          exact mul_div_cancel_right₀ x hf0
        · rw [hg]
          dsimp only
          congr 1
          rw [mul_assoc, hfg, mul_one]
    · refine ⟨x / g, ?_, ?_⟩
      · unfold UnitConverter.convert
        rw [if_neg hne, hnone]
        dsimp only
        rw [hg]
      · unfold UnitConverter.convert
        rw [if_neg hne2, hg]
        dsimp only
        congr 1
        exact div_mul_cancel₀ x hg0

/-- C5: every pair registered in the conversion table round-trips: the
forward conversion succeeds and converting the result back returns the
original value exactly (in the rational model of float arithmetic; the
reverse direction is derived by reciprocal when not registered). -/
theorem unit_convert_roundtrip (p : (String × String) × Rat)
    (hp : p ∈ UnitConverter.UNIT_CONVERSIONS) (x : Rat) :
    ∃ y, UnitConverter.convert x p.1.1 p.1.2 = some y ∧
      UnitConverter.convert y p.1.2 p.1.1 = some x := by
  refine convert_roundtrip_cases p.1.1 p.1.2 x ?_
  fin_cases hp <;>
    first
      | exact Or.inl (by decide)
      | exact Or.inr ⟨by decide, Or.inl ⟨_, rfl, by norm_num, Or.inr ⟨_, rfl, by norm_num⟩⟩⟩

/-- Witness for C5 at the gallons/liters entry with x = 2. -/
theorem unit_convert_roundtrip_witness :
    ((("gallons", "liters"), (3.78541 : Rat)) ∈ UnitConverter.UNIT_CONVERSIONS) ∧
    ∃ y, UnitConverter.convert 2 "gallons" "liters" = some y ∧
      UnitConverter.convert y "liters" "gallons" = some 2 :=
  ⟨List.mem_cons_self _ _,
    unit_convert_roundtrip (("gallons", "liters"), (3.78541 : Rat))
      (List.mem_cons_self _ _) 2⟩


mutual
theorem beqValue_refl : ∀ v : Value, beqValue v v = true
  | .none => rfl
  | .int a => by simp [beqValue]
  | .float a => by simp [beqValue]
  | .bool a => by simp [beqValue]
  | .str a => by simp [beqValue]
  | .dict l => beqEntries_refl l

theorem beqEntries_refl : ∀ l : List (String × Value), beqEntries l l = true
  | [] => rfl
  | (k, v) :: rest => by
    show (k == k && beqValue v v && beqEntries rest rest) = true
    rw [beqValue_refl v, beqEntries_refl rest]
    simp
end

theorem alistGet_mem {α : Type} (l : List (String × α)) (k : String) (v : α)
    (h : alistGet l k = some v) : (k, v) ∈ l := by
  induction l with
  | nil => cases h
  | cons p rest ih =>
    obtain ⟨k0, v0⟩ := p
    by_cases hk : k0 = k
    · subst hk
      simp only [alistGet, if_pos rfl] at h
      cases h
      exact List.mem_cons_self _ _
    · simp only [alistGet, if_neg hk] at h
      exact List.mem_cons_of_mem _ (ih h)

theorem getV_of_entriesWF (l : List (String × Value)) (p : String × Value)
    (hwf : entriesWF l = true) (hp : p ∈ l) : alistGet l p.1 = some p.2 := by
  induction l with
  | nil => cases hp
  | cons q rest ih =>
    obtain ⟨k, v⟩ := q
    unfold entriesWF at hwf
    simp only [Bool.and_eq_true] at hwf
    obtain ⟨⟨hv, hkey⟩, hrest⟩ := hwf
    rcases List.mem_cons.mp hp with hp0 | hp0
    · subst hp0
      simp [alistGet]
    · have hget := ih hrest hp0
      have hne : p.1 ≠ k := by
        intro hk
        rw [hk] at hget
        rw [hget] at hkey
        simp at hkey
      have hne2 : ¬ (k = p.1) := fun hh => hne hh.symm
      simp [alistGet, hne2, hget]

theorem pyEqVal_refl (v : Value) (hwf : valueWF v = true) : pyEqVal v v = true := by
  cases v with
  | none => rfl
  | int a => simp [pyEqVal, valAsNum]
  | float a => simp [pyEqVal, valAsNum]
  | bool b => simp [pyEqVal, valAsNum]
  | str s => simp [pyEqVal, valAsNum]
  | dict l =>
    unfold valueWF at hwf
    simp only [pyEqVal, valAsNum, beq_self_eq_true, Bool.true_and, List.all_eq_true]
    intro p hp
    rw [show getV l p.1 = alistGet l p.1 from rfl, getV_of_entriesWF l p hwf hp]
    exact beqValue_refl p.2

theorem recordWF_getPy (r : Record) (k : String) (hwf : recordWF r = true) :
    valueWF (getPy r k) = true := by
  unfold getPy
  cases hv : getV r k with
  | none => rfl
  | some v =>
    have hmem := alistGet_mem r k v hv
    unfold recordWF at hwf
    rw [List.all_eq_true] at hwf
    exact hwf (k, v) hmem

theorem foldl_all_of_step {β γ : Type} (P : γ → Prop) (g : List γ → β → List γ)
    (hg : ∀ acc b, g acc b = acc ∨ ∃ x, g acc b = acc ++ [x] ∧ P x) :
    ∀ (l : List β) (acc : List γ), (∀ q ∈ acc, P q) → ∀ q ∈ l.foldl g acc, P q := by
  intro l
  induction l with
  | nil => intro acc hacc q hq; exact hacc q hq
  | cons b rest ih =>
    intro acc hacc q hq
    rw [List.foldl_cons] at hq
    refine ih (g acc b) ?_ q hq
    intro q2 hq2
    rcases hg acc b with hcase | ⟨x, hcase, hx⟩
    · rw [hcase] at hq2
      exact hacc q2 hq2
    · rw [hcase] at hq2
      rcases List.mem_append.mp hq2 with h2 | h2
      · exact hacc q2 h2
      · rw [List.mem_singleton.mp h2]
        exact hx


theorem collectSims_bounds (user_data candidate_data : Record) (s : ProductSchema) :
    ∀ p ∈ MatcherService.collectSims user_data candidate_data s,
      (0 ≤ p.1 ∧ p.1 ≤ 1) ∧ 0 < p.2 := by
  intro p hp
  unfold MatcherService.collectSims at hp
  refine foldl_all_of_step (fun q => (0 ≤ q.1 ∧ q.1 ≤ 1) ∧ 0 < q.2) _ ?_ s.fields []
    (by simp) p hp
  intro acc f
  dsimp only
  by_cases h0 : (isNoneV (getPy user_data f.name) || isNoneV (getPy candidate_data f.name)) = true
  · rw [if_pos h0]
    exact Or.inl rfl
  · rw [if_neg h0]
    by_cases h1 : f.type = FieldType.integer ∨ f.type = FieldType.decimal
    · rw [if_pos h1]
      cases hqu : pyFloatCall (getPy user_data f.name) with
      | none =>
        cases hqc : pyFloatCall (getPy candidate_data f.name) <;> exact Or.inl rfl
      | some un =>
        cases hqc : pyFloatCall (getPy candidate_data f.name) with
        | none => exact Or.inl rfl
        | some cn =>
          refine Or.inr ⟨_, rfl, ⟨?_, ?_⟩, ?_⟩
          · dsimp only
            by_cases hz : un = 0
            · rw [if_pos hz]
              split <;> norm_num
            · rw [if_neg hz]
              exact le_max_left _ _
          · dsimp only
            by_cases hz : un = 0
            · rw [if_pos hz]
              split <;> norm_num
            · rw [if_neg hz]
              have hd : 0 ≤ |cn - un| / |un| := div_nonneg (abs_nonneg _) (abs_nonneg _)
              refine max_le (by norm_num) (by linarith)
          · dsimp only
            split <;> norm_num
    · rw [if_neg h1]
      refine Or.inr ⟨_, rfl, ⟨?_, ?_⟩, ?_⟩ <;> dsimp only <;> split <;> norm_num

theorem collectSims_self_ones (r : Record) (s : ProductSchema)
    (hwf : recordWF r = true) :
    ∀ p ∈ MatcherService.collectSims r r s, p.1 = 1 ∧ 0 < p.2 := by
  intro p hp
  unfold MatcherService.collectSims at hp
  refine foldl_all_of_step (fun q => q.1 = 1 ∧ 0 < q.2) _ ?_ s.fields [] (by simp) p hp
  intro acc f
  dsimp only
  by_cases h0 : (isNoneV (getPy r f.name) || isNoneV (getPy r f.name)) = true
  · rw [if_pos h0]
    exact Or.inl rfl
  · rw [if_neg h0]
    by_cases h1 : f.type = FieldType.integer ∨ f.type = FieldType.decimal
    · rw [if_pos h1]
      cases hq : pyFloatCall (getPy r f.name) with
      | none => exact Or.inl rfl
      | some q =>
        refine Or.inr ⟨_, rfl, ?_, ?_⟩
        · dsimp only
          by_cases hz : q = 0
          · simp [hz]
          · rw [if_neg hz]
            rw [sub_self, abs_zero, zero_div, sub_zero]
            exact max_eq_right (by norm_num)
        · dsimp only
          split <;> norm_num
    · rw [if_neg h1]
      refine Or.inr ⟨_, rfl, ?_, ?_⟩
      · dsimp only
        rw [pyEqVal_refl _ (recordWF_getPy r f.name hwf)]
        rfl
      · dsimp only
        split <;> norm_num

theorem spec_similarity_bounds (user_data candidate_data : Record) (s : ProductSchema) :
    0 ≤ MatcherService._calculate_spec_similarity user_data candidate_data s ∧
      MatcherService._calculate_spec_similarity user_data candidate_data s ≤ 1 := by
  unfold MatcherService._calculate_spec_similarity
  by_cases h1 : s.fields.isEmpty
  · rw [if_pos h1]
    norm_num
  · rw [if_neg h1]
    dsimp only
    by_cases h2 : (MatcherService.collectSims user_data candidate_data s).isEmpty
    · rw [if_pos h2]
      norm_num
    · rw [if_neg h2]
      have hall := collectSims_bounds user_data candidate_data s
      set sims := MatcherService.collectSims user_data candidate_data s with hsims
      have hws : 0 ≤ (sims.map fun p => p.1 * p.2).sum := by
        refine List.sum_nonneg ?_
        intro x hx
        rcases List.mem_map.mp hx with ⟨p, hpmem, hpx⟩
        rcases hall p hpmem with ⟨⟨hs0, _⟩, hw0⟩
        rw [← hpx]
        exact mul_nonneg hs0 (le_of_lt hw0)
      have hle : (sims.map fun p => p.1 * p.2).sum ≤ (sims.map fun p => p.2).sum := by
        refine List.sum_le_sum ?_
        intro p hpmem
        rcases hall p hpmem with ⟨⟨_, hs1⟩, hw0⟩
        exact mul_le_of_le_one_left (le_of_lt hw0) hs1
      by_cases h3 : (sims.map fun p => p.2).sum > 0
      · rw [if_pos h3]
        exact ⟨div_nonneg hws (le_of_lt h3), (div_le_one h3).mpr hle⟩
      · rw [if_neg h3]
        norm_num

theorem spec_similarity_self (r : Record) (s : ProductSchema)
    (hwf : recordWF r = true)
    (hne : MatcherService.collectSims r r s ≠ []) :
    MatcherService._calculate_spec_similarity r r s = 1 := by
  unfold MatcherService._calculate_spec_similarity
  have hfields : ¬ s.fields.isEmpty := by
    intro hemp
    refine hne ?_
    unfold MatcherService.collectSims
    rw [List.isEmpty_iff.mp hemp]
    rfl
  rw [if_neg hfields]
  dsimp only
  have hall := collectSims_self_ones r s hwf
  set sims := MatcherService.collectSims r r s with hsims
  have h2 : ¬ sims.isEmpty := by
    intro hemp
    exact hne (List.isEmpty_iff.mp hemp)
  rw [if_neg h2]
  have heq : (sims.map fun p => p.1 * p.2) = sims.map fun p => p.2 := by
    refine List.map_congr_left ?_
    intro p hpmem
    rw [(hall p hpmem).1, one_mul]
  have htw : 0 < (sims.map fun p => p.2).sum := by
    refine List.sum_pos _ ?_ ?_
    · intro x hx
      rcases List.mem_map.mp hx with ⟨p, hpmem, hpx⟩
      rw [← hpx]
      exact (hall p hpmem).2
    · intro hmapnil
      exact hne (List.map_eq_nil_iff.mp hmapnil)
  rw [if_pos htw, heq]
  exact div_self (ne_of_gt htw)

/-- Amended C7: spec similarity is always within 0..1; a record compared
against itself scores exactly 1.0 whenever at least one field pair is
comparable (and the record is a well-formed Python dict); and the
confidence blend 0.6 * spec + 0.4 * semantic stays within 0..1 whenever
the semantic similarity does. -/
theorem confidence_scorer_properties :
    (∀ (user_data candidate_data : Record) (s : ProductSchema),
      0 ≤ MatcherService._calculate_spec_similarity user_data candidate_data s ∧
        MatcherService._calculate_spec_similarity user_data candidate_data s ≤ 1) ∧
    (∀ (r : Record) (s : ProductSchema), recordWF r = true →
      MatcherService.collectSims r r s ≠ [] →
      MatcherService._calculate_spec_similarity r r s = 1) ∧
    (∀ spec_similarity semantic_similarity : Rat,
      0 ≤ spec_similarity → spec_similarity ≤ 1 →
      0 ≤ semantic_similarity → semantic_similarity ≤ 1 →
      MatcherService.calculate_confidence_score spec_similarity semantic_similarity =
        0.6 * spec_similarity + 0.4 * semantic_similarity ∧
      0 ≤ MatcherService.calculate_confidence_score spec_similarity semantic_similarity ∧
      MatcherService.calculate_confidence_score spec_similarity semantic_similarity ≤ 1) := by
  refine ⟨spec_similarity_bounds, spec_similarity_self, ?_⟩
  intro spec sem h1 h2 h3 h4
  refine ⟨rfl, ?_, ?_⟩ <;> unfold MatcherService.calculate_confidence_score
  · nlinarith
  · nlinarith

def schemaC7X : ProductSchema :=
  { fields := [{ name := "wattage", type := FieldType.integer }] }

/-- Counterexample to C7 as stated: the empty record compared against
itself yields spec similarity 0.0, not 1.0, because no field pair is
comparable (the source returns 0.0 in that case). -/
theorem spec_similarity_self_counterexample :
    MatcherService._calculate_spec_similarity [] [] schemaC7X = 0 ∧ (0 : Rat) ≠ 1 :=
  ⟨rfl, by norm_num⟩

def recC7W : Record := [("wattage", Value.int 1800)]

/-- Witness for the amended C7 at concrete inputs. -/
theorem confidence_scorer_properties_witness :
    (0 ≤ MatcherService._calculate_spec_similarity recC7W [] schemaC7X ∧
      MatcherService._calculate_spec_similarity recC7W [] schemaC7X ≤ 1) ∧
    (recordWF recC7W = true ∧ MatcherService.collectSims recC7W recC7W schemaC7X ≠ [] ∧
      MatcherService._calculate_spec_similarity recC7W recC7W schemaC7X = 1) ∧
    ((0 : Rat) ≤ 1 / 2 ∧ (1 / 2 : Rat) ≤ 1 ∧ (0 : Rat) ≤ 1 / 4 ∧ (1 / 4 : Rat) ≤ 1 ∧
      0 ≤ MatcherService.calculate_confidence_score (1 / 2) (1 / 4) ∧
      MatcherService.calculate_confidence_score (1 / 2) (1 / 4) ≤ 1) := by
  refine ⟨confidence_scorer_properties.1 recC7W [] schemaC7X, ?_, ?_⟩
  · refine ⟨rfl, ?_, ?_⟩
    · intro h
      cases h
    · exact confidence_scorer_properties.2.1 recC7W schemaC7X rfl (fun h => by cases h)
  · have h := confidence_scorer_properties.2.2 (1 / 2) (1 / 4)
      (by norm_num) (by norm_num) (by norm_num) (by norm_num)
    exact ⟨by norm_num, by norm_num, by norm_num, by norm_num, h.2.1, h.2.2⟩


theorem contains_iff_mem_str (l : List String) (x : String) :
    l.contains x = true ↔ x ∈ l := by
  induction l with
  | nil => simp
  | cons y rest ih => simp [List.contains_cons, ih]

theorem mem_dedup_aux (x : String) (l : List String) :
    ∀ acc : List String,
      (x ∈ l.foldl (fun acc y => if acc.contains y then acc else acc ++ [y]) acc ↔
        x ∈ acc ∨ x ∈ l) := by
  induction l with
  | nil => intro acc; simp
  | cons y rest ih =>
    intro acc
    rw [List.foldl_cons]
    by_cases hc : acc.contains y = true
    · rw [if_pos hc, ih]
      have hy : y ∈ acc := (contains_iff_mem_str acc y).mp hc
      simp only [List.mem_cons]
      constructor
      · rintro (h | h)
        · exact Or.inl h
        · exact Or.inr (Or.inr h)
      · rintro (h | h | h)
        · exact Or.inl h
        · exact Or.inl (h ▸ hy)
        · exact Or.inr h
    · rw [if_neg hc, ih]
      simp only [List.mem_append, List.mem_singleton, List.mem_cons]
      tauto

theorem mem_dedupFirst (l : List String) (x : String) :
    x ∈ dedupFirst l ↔ x ∈ l := by
  unfold dedupFirst
  rw [mem_dedup_aux]
  simp

theorem scanRedStep_fold_mem (lid : String) (fields : List (String × CompEntry))
    (x : String) :
    ∀ acc : List String × List String,
      (x ∈ (fields.foldl (AlertCalculatorService.scanRedStep lid) acc).1 ↔
        x ∈ acc.1 ∨ (x = lid ∧ fields.any
          (fun p => p.2.alert == some "red" && strContains (strLower p.1) "price") = true)) ∧
      (x ∈ (fields.foldl (AlertCalculatorService.scanRedStep lid) acc).2 ↔
        x ∈ acc.2 ∨ (x = lid ∧ fields.any
          (fun p => p.2.alert == some "red" && !(strContains (strLower p.1) "price")) = true)) := by
  induction fields with
  | nil => intro acc; simp
  | cons p rest ih =>
    intro acc
    rw [List.foldl_cons]
    by_cases hr : p.2.alert = some "red"
    · by_cases hp : strContains (strLower p.1) "price" = true
      · have hstep : AlertCalculatorService.scanRedStep lid acc p = (acc.1 ++ [lid], acc.2) := by
          unfold AlertCalculatorService.scanRedStep
          rw [if_pos hr, if_pos hp]
        rw [hstep]
        constructor
        · rw [(ih _).1]
          simp only [List.any_cons, Bool.or_eq_true, Bool.and_eq_true, beq_iff_eq,
            List.mem_append, List.mem_singleton]
          simp [hr, hp]
          tauto
        · rw [(ih _).2]
          simp [List.any_cons, hr, hp]
      · have hstep : AlertCalculatorService.scanRedStep lid acc p = (acc.1, acc.2 ++ [lid]) := by
          unfold AlertCalculatorService.scanRedStep
          rw [if_pos hr, if_neg hp]
        rw [hstep]
        constructor
        · rw [(ih _).1]
          simp [List.any_cons, hr, Bool.eq_false_iff.mpr hp]
        · rw [(ih _).2]
          simp only [List.any_cons, Bool.or_eq_true, Bool.and_eq_true, beq_iff_eq,
            List.mem_append, List.mem_singleton]
          simp [hr, Bool.eq_false_iff.mpr hp]
          tauto
    · have hstep : AlertCalculatorService.scanRedStep lid acc p = acc := by
        unfold AlertCalculatorService.scanRedStep
        rw [if_neg hr]
      rw [hstep]
      constructor
      · rw [(ih _).1]
        simp [List.any_cons, hr]
      · rw [(ih _).2]
        simp [List.any_cons, hr]

theorem scanYellowStep_fold_mem (lid : String) (entries : List (String × CompEntry))
    (x : String) :
    ∀ acc : List String × List String,
      (entries.foldl (AlertCalculatorService.scanYellowStep lid) acc).1 = acc.1 ∧
      (x ∈ (entries.foldl (AlertCalculatorService.scanYellowStep lid) acc).2 ↔
        x ∈ acc.2 ∨ (x = lid ∧ entries.any
          (fun p => p.2.alert == some "yellow") = true)) := by
  induction entries with
  | nil => intro acc; simp
  | cons p rest ih =>
    intro acc
    rw [List.foldl_cons]
    by_cases hy : p.2.alert = some "yellow"
    · have hstep : AlertCalculatorService.scanYellowStep lid acc p = (acc.1, acc.2 ++ [lid]) := by
        unfold AlertCalculatorService.scanYellowStep
        rw [if_pos hy]
      rw [hstep]
      refine ⟨(ih _).1, ?_⟩
      rw [(ih _).2]
      simp only [List.any_cons, Bool.or_eq_true, beq_iff_eq, List.mem_append,
        List.mem_singleton]
      simp [hy]
      tauto
    · have hstep : AlertCalculatorService.scanYellowStep lid acc p = acc := by
        unfold AlertCalculatorService.scanYellowStep
        rw [if_neg hy]
      rw [hstep]
      refine ⟨(ih _).1, ?_⟩
      rw [(ih _).2]
      simp [List.any_cons, hy]

theorem scanComparisons_mem (comparison_results : List ListingComparison) (x : String) :
    (x ∈ (AlertCalculatorService.scanComparisons comparison_results).1 ↔
      hasRedPriceFieldAlert x comparison_results = true) ∧
    (x ∈ (AlertCalculatorService.scanComparisons comparison_results).2 ↔
      hasSpecDisadvantageAlert x comparison_results = true) := by
  unfold AlertCalculatorService.scanComparisons
  have aux : ∀ (l : List ListingComparison) (acc : List String × List String),
      (x ∈ (l.foldl AlertCalculatorService.scanResultStep acc).1 ↔
        x ∈ acc.1 ∨ hasRedPriceFieldAlert x l = true) ∧
      (x ∈ (l.foldl AlertCalculatorService.scanResultStep acc).2 ↔
        x ∈ acc.2 ∨ hasSpecDisadvantageAlert x l = true) := by
    intro l
    induction l with
    | nil => intro acc; simp [hasRedPriceFieldAlert, hasSpecDisadvantageAlert]
    | cons r rest ih =>
      intro acc
      rw [List.foldl_cons]
      constructor
      · rw [(ih _).1]
        unfold AlertCalculatorService.scanResultStep
        dsimp only
        rw [(scanYellowStep_fold_mem _ _ x _).1, (scanYellowStep_fold_mem _ _ x _).1,
          ((scanRedStep_fold_mem _ _ x _).1)]
        unfold hasRedPriceFieldAlert
        simp only [List.any_cons, Bool.or_eq_true, Bool.and_eq_true, beq_iff_eq]
        aesop
      · rw [(ih _).2]
        unfold AlertCalculatorService.scanResultStep
        dsimp only
        rw [(scanYellowStep_fold_mem _ _ x _).2, (scanYellowStep_fold_mem _ _ x _).2,
          ((scanRedStep_fold_mem _ _ x _).2)]
        unfold hasSpecDisadvantageAlert
        simp only [List.any_cons, Bool.or_eq_true, Bool.and_eq_true, beq_iff_eq]
        aesop
  have h := aux comparison_results ([], [])
  simpa using h


theorem alertFieldLabelStep_fold_mem (x : String) (fields : List (String × CompEntry)) :
    ∀ acc : List String,
      x ∈ fields.foldl AlertCalculatorService.alertFieldLabelStep acc ↔
        x ∈ acc ∨
          (x = "price_drop" ∧ fields.any (fun p => p.2.alert == some "red") = true) ∨
          (x = "spec_disadvantage" ∧
            fields.any (fun p => p.2.alert == some "yellow") = true) := by
  induction fields with
  | nil => intro acc; simp
  | cons p rest ih =>
    intro acc
    rw [List.foldl_cons]
    by_cases hr : p.2.alert = some "red"
    · have hredb : (p.2.alert == some "red") = true := by rw [hr]; decide
      have hyb : (p.2.alert == some "yellow") = false := by rw [hr]; decide
      have hstep : AlertCalculatorService.alertFieldLabelStep acc p = acc ++ ["price_drop"] := by
        unfold AlertCalculatorService.alertFieldLabelStep
        rw [if_pos hr]
      rw [hstep, ih]
      simp only [List.any_cons, hredb, hyb, Bool.true_or, Bool.false_or,
        List.mem_append, List.mem_singleton, eq_self_iff_true, and_true, true_and]
      tauto
    · by_cases hy : p.2.alert = some "yellow"
      · have hredb : (p.2.alert == some "red") = false := by rw [hy]; decide
        have hyb : (p.2.alert == some "yellow") = true := by rw [hy]; decide
        have hstep : AlertCalculatorService.alertFieldLabelStep acc p =
            acc ++ ["spec_disadvantage"] := by
          unfold AlertCalculatorService.alertFieldLabelStep
          rw [if_neg hr, if_pos hy]
        rw [hstep, ih]
        simp only [List.any_cons, hredb, hyb, Bool.true_or, Bool.false_or,
          List.mem_append, List.mem_singleton, eq_self_iff_true, and_true, true_and]
        tauto
      · have hredb : (p.2.alert == some "red") = false := beq_eq_false_iff_ne.mpr hr
        have hyb : (p.2.alert == some "yellow") = false := beq_eq_false_iff_ne.mpr hy
        have hstep : AlertCalculatorService.alertFieldLabelStep acc p = acc := by
          unfold AlertCalculatorService.alertFieldLabelStep
          rw [if_neg hr, if_neg hy]
        rw [hstep, ih]
        simp only [List.any_cons, hredb, hyb, Bool.false_or]

theorem alertMetricLabelStep_fold_mem (x : String) (metrics : List (String × CompEntry)) :
    ∀ acc : List String,
      x ∈ metrics.foldl AlertCalculatorService.alertMetricLabelStep acc ↔
        x ∈ acc ∨
          (x = "spec_disadvantage" ∧
            metrics.any (fun p => p.2.alert == some "yellow") = true) := by
  induction metrics with
  | nil => intro acc; simp
  | cons p rest ih =>
    intro acc
    rw [List.foldl_cons]
    by_cases hy : p.2.alert = some "yellow"
    · have hyb : (p.2.alert == some "yellow") = true := by rw [hy]; decide
      have hstep : AlertCalculatorService.alertMetricLabelStep acc p =
          acc ++ ["spec_disadvantage"] := by
        unfold AlertCalculatorService.alertMetricLabelStep
        rw [if_pos hy]
      rw [hstep, ih]
      simp only [List.any_cons, hyb, Bool.true_or, List.mem_append, List.mem_singleton,
        eq_self_iff_true, and_true]
      tauto
    · have hyb : (p.2.alert == some "yellow") = false := beq_eq_false_iff_ne.mpr hy
      have hstep : AlertCalculatorService.alertMetricLabelStep acc p = acc := by
        unfold AlertCalculatorService.alertMetricLabelStep
        rw [if_neg hy]
      rw [hstep, ih]
      simp only [List.any_cons, hyb, Bool.false_or]

theorem alertResultStep_fold_mem (x lid : String) (results : List ListingComparison) :
    ∀ acc : List String,
      x ∈ results.foldl (AlertCalculatorService.alertResultStep lid) acc ↔
        x ∈ acc ∨
          (x = "price_drop" ∧ hasRedFieldAlert lid results = true) ∨
          (x = "spec_disadvantage" ∧ hasYellowAlert lid results = true) := by
  induction results with
  | nil => intro acc; simp [hasRedFieldAlert, hasYellowAlert]
  | cons r rest ih =>
    intro acc
    rw [List.foldl_cons]
    unfold hasRedFieldAlert hasYellowAlert
    by_cases hl : r.listing_id = lid
    · have hlb : (r.listing_id == lid) = true := by rw [hl]; exact beq_self_eq_true lid
      have hstep : AlertCalculatorService.alertResultStep lid acc r =
          r.comparison.metrics.foldl AlertCalculatorService.alertMetricLabelStep
            (r.comparison.fields.foldl AlertCalculatorService.alertFieldLabelStep acc) := by
        unfold AlertCalculatorService.alertResultStep
        rw [if_neg (fun hh => hh hl)]
      rw [hstep, ih, alertMetricLabelStep_fold_mem, alertFieldLabelStep_fold_mem]
      unfold hasRedFieldAlert hasYellowAlert
      simp only [List.any_cons, hlb, Bool.true_and, Bool.or_eq_true, Bool.and_eq_true]
      tauto
    · have hlb : (r.listing_id == lid) = false := beq_eq_false_iff_ne.mpr hl
      have hstep : AlertCalculatorService.alertResultStep lid acc r = acc := by
        unfold AlertCalculatorService.alertResultStep
        rw [if_pos hl]
      rw [hstep, ih]
      unfold hasRedFieldAlert hasYellowAlert
      simp only [List.any_cons, hlb, Bool.false_and, Bool.false_or]

theorem get_alerts_iff (lid : String) (results : List ListingComparison) (x : String) :
    x ∈ AlertCalculatorService._get_alerts_for_listing lid results ↔
      (x = "price_drop" ∧ hasRedFieldAlert lid results = true) ∨
      (x = "spec_disadvantage" ∧ hasYellowAlert lid results = true) := by
  unfold AlertCalculatorService._get_alerts_for_listing
  rw [mem_dedupFirst, alertResultStep_fold_mem]
  simp

theorem severity_eq (lid : String) (results : List ListingComparison) :
    AlertCalculatorService._calculate_severity lid results =
      (if hasRedFieldAlert lid results && hasYellowAlert lid results then "high"
       else if (hasRedFieldAlert lid results || hasYellowAlert lid results) then "medium"
       else "low") := by
  unfold AlertCalculatorService._calculate_severity
  have h1 : (AlertCalculatorService._get_alerts_for_listing lid results).contains
      "price_drop" = hasRedFieldAlert lid results := by
    cases hr : hasRedFieldAlert lid results
    · cases hc : (AlertCalculatorService._get_alerts_for_listing lid results).contains
          "price_drop"
      · rfl
      · exfalso
        have hmem := (contains_iff_mem_str _ _).mp hc
        rw [get_alerts_iff] at hmem
        rcases hmem with ⟨_, habs⟩ | ⟨habs, _⟩
        · rw [hr] at habs
          cases habs
        · exact absurd habs (by decide)
    · exact (contains_iff_mem_str _ _).mpr ((get_alerts_iff _ _ _).mpr (Or.inl ⟨rfl, hr⟩))
  have h2 : (AlertCalculatorService._get_alerts_for_listing lid results).contains
      "spec_disadvantage" = hasYellowAlert lid results := by
    cases hy : hasYellowAlert lid results
    · cases hc : (AlertCalculatorService._get_alerts_for_listing lid results).contains
          "spec_disadvantage"
      · rfl
      · exfalso
        have hmem := (contains_iff_mem_str _ _).mp hc
        rw [get_alerts_iff] at hmem
        rcases hmem with ⟨habs, _⟩ | ⟨_, habs⟩
        · exact absurd habs (by decide)
        · rw [hy] at habs
          cases habs
    · exact (contains_iff_mem_str _ _).mpr ((get_alerts_iff _ _ _).mpr (Or.inr ⟨rfl, hy⟩))
  dsimp only
  rw [h1, h2]

def redEntryC8 : CompEntry :=
  ⟨.float 100, .float 80, some (-20), "competitor", some "red"⟩

def yellowEntryC8 : CompEntry :=
  ⟨.int 2, .int 3, some 1, "competitor", some "yellow"⟩

def scenarioC8 : List ListingComparison :=
  [⟨"L1", ⟨[("price", redEntryC8)], []⟩⟩, ⟨"L2", ⟨[("cpu", yellowEntryC8)], []⟩⟩]

/-- Amended C8: the summary lists classify a red field alert as a
price-drop only when the field name contains "price" (case-insensitively)
and as a spec-disadvantage otherwise, with yellow field and metric alerts
as spec-disadvantages; per-listing severity, however, follows the alert
labels of _get_alerts_for_listing, which label every red field alert
price_drop regardless of the field name: severity is high iff the listing
has some red field alert and some yellow alert, medium iff exactly one of
the two, low otherwise.  On the specification's two-listing scenario (one
red price alert, one yellow alert, no history) the counts are
price_drops 1, spec_disadvantages 1, price_increases 0. -/
theorem alert_summary_properties :
    (∀ (results : List ListingComparison) (x : String),
      (x ∈ (AlertCalculatorService.scanComparisons results).1 ↔
        hasRedPriceFieldAlert x results = true) ∧
      (x ∈ (AlertCalculatorService.scanComparisons results).2 ↔
        hasSpecDisadvantageAlert x results = true)) ∧
    (∀ (lid : String) (results : List ListingComparison),
      AlertCalculatorService._calculate_severity lid results =
        (if hasRedFieldAlert lid results && hasYellowAlert lid results then "high"
         else if (hasRedFieldAlert lid results || hasYellowAlert lid results) then "medium"
         else "low")) ∧
    ((AlertCalculatorService.calculate_summary scenarioC8 []).price_drops.count = 1 ∧
      (AlertCalculatorService.calculate_summary scenarioC8 []).spec_disadvantages.count = 1 ∧
      (AlertCalculatorService.calculate_summary scenarioC8 []).price_increases.count = 0) :=
  ⟨scanComparisons_mem, severity_eq, rfl, rfl, rfl⟩

def mixListingC8 : ListingComparison :=
  ⟨"LX", ⟨[("weight", redEntryC8), ("cpu", yellowEntryC8)], []⟩⟩

/-- Counterexample to C8 as stated: a listing with a red alert on the
non-price field "weight" and a yellow alert on "cpu" has, per the claim's
classification, only spec-disadvantage alerts (the summary indeed counts
zero price drops), so the claim predicts severity "medium"; the code
labels the red alert price_drop anyway and reports severity "high". -/
theorem severity_counterexample :
    AlertCalculatorService._calculate_severity "LX" [mixListingC8] = "high" ∧
    (AlertCalculatorService.calculate_summary [mixListingC8] []).price_drops.count = 0 ∧
    "high" ≠ "medium" :=
  ⟨rfl, rfl, by decide⟩


theorem takeWhile_append_not {p : Char → Bool} (A : List Char) (x : Char) (B : List Char)
    (hA : ∀ c ∈ A, p c = true) (hx : p x = false) :
    (A ++ x :: B).takeWhile p = A ∧ (A ++ x :: B).dropWhile p = x :: B := by
  induction A with
  | nil => simp [List.takeWhile, List.dropWhile, hx]
  | cons c rest ih =>
    have hc : p c = true := hA c (by simp)
    have hrest : ∀ c2 ∈ rest, p c2 = true := fun c2 h2 => hA c2 (by simp [h2])
    obtain ⟨ht, hd⟩ := ih hrest
    constructor
    · show ((c :: (rest ++ x :: B)).takeWhile p) = c :: rest
      rw [List.takeWhile_cons, hc]
      simp [ht]
    · show ((c :: (rest ++ x :: B)).dropWhile p) = x :: B
      rw [List.dropWhile_cons, hc]
      simpa using hd

theorem takeWhile_of_all {p : Char → Bool} (A : List Char) (hA : ∀ c ∈ A, p c = true) :
    A.takeWhile p = A ∧ A.dropWhile p = [] := by
  induction A with
  | nil => simp
  | cons c rest ih =>
    have hc : p c = true := hA c (by simp)
    obtain ⟨ht, hd⟩ := ih fun c2 h2 => hA c2 (by simp [h2])
    rw [List.takeWhile_cons, List.dropWhile_cons, hc]
    simp [ht, hd]

theorem pyFloatBody_digits (A : List Char) (hA : ∀ c ∈ A, c.isDigit = true)
    (hne : A ≠ []) : (pyFloatBody A).isSome = true := by
  unfold pyFloatBody
  obtain ⟨ht, hd⟩ := takeWhile_of_all A hA
  rw [ht, hd]
  dsimp only
  rw [if_neg (by simpa [List.isEmpty_iff] using hne)]
  rfl

theorem pyFloatBody_digits_dot (A : List Char) (fs : List Char)
    (hA : ∀ c ∈ A, c.isDigit = true) (hne : A ≠ [])
    (hfs : ∀ c ∈ fs, c.isDigit = true) :
    (pyFloatBody (A ++ '.' :: fs)).isSome = true := by
  unfold pyFloatBody
  obtain ⟨ht, hd⟩ := takeWhile_append_not A '.' fs hA (by decide)
  rw [ht, hd]
  dsimp only
  rw [if_pos rfl]
  obtain ⟨ht2, hd2⟩ := takeWhile_of_all fs hfs
  rw [ht2, hd2]
  rw [if_neg (by simp [List.isEmpty_iff, hne])]
  rfl

theorem findDecToken_parses (cs : List Char) (tok : List Char)
    (h : findDecToken cs = some tok) : (pyFloatBody tok).isSome = true := by
  induction cs with
  | nil => cases h
  | cons c rest ih =>
    unfold findDecToken at h
    by_cases hc : c.isDigit = true
    · rw [if_pos hc] at h
      cases hrest : rest.dropWhile Char.isDigit with
      | nil =>
        rw [hrest] at h
        cases h
        refine pyFloatBody_digits _ ?_ (by simp)
        intro x hx
        rcases List.mem_cons.mp hx with hx0 | hx0
        · exact hx0 ▸ hc
        · exact List.mem_takeWhile_imp hx0
      | cons d rest2 =>
        rw [hrest] at h
        dsimp only at h
        by_cases hd : d = '.'
        · rw [if_pos hd] at h
          subst hd
          cases h
          refine pyFloatBody_digits_dot (c :: rest.takeWhile Char.isDigit) _ ?_ (by simp) ?_
          · intro x hx
            rcases List.mem_cons.mp hx with hx0 | hx0
            · exact hx0 ▸ hc
            · exact List.mem_takeWhile_imp hx0
          · intro x hx
            exact List.mem_takeWhile_imp hx
        · rw [if_neg hd] at h
          cases h
          refine pyFloatBody_digits _ ?_ (by simp)
          intro x hx
          rcases List.mem_cons.mp hx with hx0 | hx0
          · exact hx0 ▸ hc
          · exact List.mem_takeWhile_imp hx0
    · rw [if_neg hc] at h
      exact ih h


theorem typeOk_none_false (t : FieldType) : SchemaValidator.typeOk t Value.none = false := by
  cases t <;> rfl

theorem typeOk_dict_false (t : FieldType) (l : List (String × Value)) :
    SchemaValidator.typeOk t (Value.dict l) = false := by
  cases t <;> rfl

theorem normIntCoerce_of_typeOk (v : Value)
    (h : SchemaValidator.typeOk FieldType.integer v = true) :
    (SchemaValidator.normIntCoerce v).isSome = true := by
  cases v with
  | str s =>
    have h2 : (pyIntStr s).isSome = true := h
    unfold SchemaValidator.normIntCoerce
    dsimp only
    cases htok : findIntToken (trimChars s.toList) with
    | some tok => rfl
    | none => exact h2
  | none => rw [typeOk_none_false] at h; cases h
  | dict l => rw [typeOk_dict_false] at h; cases h
  | int n => rfl
  | bool b => rfl
  | float q => rfl

theorem normDecCoerce_of_typeOk (v : Value)
    (h : SchemaValidator.typeOk FieldType.decimal v = true) :
    (SchemaValidator.normDecCoerce v).isSome = true := by
  cases v with
  | str s =>
    unfold SchemaValidator.normDecCoerce
    dsimp only
    cases htok : findDecToken (trimChars s.toList) with
    | some tok => exact findDecToken_parses _ tok htok
    | none =>
      have h2 : (if (findDecToken (trimChars s.toList)).isSome = true then true
          else (pyFloatStr s).isSome) = true := h
      rw [htok] at h2
      simpa using h2
  | none => rw [typeOk_none_false] at h; cases h
  | dict l => rw [typeOk_dict_false] at h; cases h
  | int n => rfl
  | bool b => rfl
  | float q => rfl

theorem unwrap_eq_self_of_typeOk (t : FieldType) (v : Value)
    (h : SchemaValidator.typeOk t v = true) :
    SchemaValidator.unwrapValueDict v = v ∧ isNoneV v = false := by
  cases v with
  | dict l => rw [typeOk_dict_false] at h; cases h
  | none => rw [typeOk_none_false] at h; cases h
  | int n => exact ⟨rfl, rfl⟩
  | bool b => exact ⟨rfl, rfl⟩
  | float q => exact ⟨rfl, rfl⟩
  | str s => exact ⟨rfl, rfl⟩

theorem normEntry_some_of_typeOk (data : Record) (f : FieldDefinition) (v : Value)
    (hv : getV data f.name = some v)
    (htv : SchemaValidator.typeOk f.type v = true) :
    ∃ w, SchemaValidator.normEntry data f = some w ∧
      SchemaValidator.typeOk f.type w = true := by
  cases v with
  | none => rw [typeOk_none_false] at htv; cases htv
  | dict l => rw [typeOk_dict_false] at htv; cases htv
  | int n =>
    unfold SchemaValidator.normEntry
    rw [hv]
    dsimp only [SchemaValidator.unwrapValueDict]
    cases hft : f.type with
    | integer => exact ⟨Value.int n, rfl, rfl⟩
    | decimal => exact ⟨Value.float (n : Rat), rfl, rfl⟩
    | boolean => rw [hft] at htv; cases htv
    | text => rw [hft] at htv; cases htv
  | float q =>
    unfold SchemaValidator.normEntry
    rw [hv]
    dsimp only [SchemaValidator.unwrapValueDict]
    cases hft : f.type with
    | integer => exact ⟨Value.int (Int.tdiv q.num (q.den : Int)), rfl, rfl⟩
    | decimal => exact ⟨Value.float q, rfl, rfl⟩
    | boolean => rw [hft] at htv; cases htv
    | text => rw [hft] at htv; cases htv
  | bool b =>
    unfold SchemaValidator.normEntry
    rw [hv]
    dsimp only [SchemaValidator.unwrapValueDict]
    cases hft : f.type with
    | integer => exact ⟨Value.int (if b then 1 else 0), rfl, rfl⟩
    | decimal => exact ⟨Value.float (if b then 1 else 0), rfl, rfl⟩
    | boolean => exact ⟨Value.bool b, rfl, rfl⟩
    | text => rw [hft] at htv; cases htv
  | str t =>
    unfold SchemaValidator.normEntry
    rw [hv]
    dsimp only [SchemaValidator.unwrapValueDict]
    cases hft : f.type with
    | integer =>
      rw [hft] at htv
      have hsome := normIntCoerce_of_typeOk (Value.str t) htv
      cases hcoerce : SchemaValidator.normIntCoerce (Value.str t) with
      | none => rw [hcoerce] at hsome; cases hsome
      | some n =>
        exact ⟨Value.int n, rfl, rfl⟩
    | decimal =>
      rw [hft] at htv
      have hsome := normDecCoerce_of_typeOk (Value.str t) htv
      cases hcoerce : SchemaValidator.normDecCoerce (Value.str t) with
      | none => rw [hcoerce] at hsome; cases hsome
      | some q =>
        exact ⟨Value.float q, rfl, rfl⟩
    | boolean => rw [hft] at htv; cases htv
    | text => exact ⟨Value.str t, rfl, rfl⟩


/-- Re-normalizing a stored None under a required field yields None again
(the unwrap branch of normEntry keeps None for required fields). -/
theorem renorm_none (d : Record) (f : FieldDefinition)
    (hreq : f.required = true) (h2 : getV d f.name = some Value.none) :
    SchemaValidator.normEntry d f = some Value.none := by
  unfold SchemaValidator.normEntry
  rw [h2, hreq]
  rfl

/-- Re-normalizing a stored int under an integer field is the identity. -/
theorem renorm_int (d : Record) (f : FieldDefinition) (n : Int)
    (hft : f.type = FieldType.integer) (h2 : getV d f.name = some (Value.int n)) :
    SchemaValidator.normEntry d f = some (Value.int n) := by
  unfold SchemaValidator.normEntry
  rw [h2, hft]
  rfl

/-- Re-normalizing a stored float under a decimal field is the identity. -/
theorem renorm_float (d : Record) (f : FieldDefinition) (q : Rat)
    (hft : f.type = FieldType.decimal) (h2 : getV d f.name = some (Value.float q)) :
    SchemaValidator.normEntry d f = some (Value.float q) := by
  unfold SchemaValidator.normEntry
  rw [h2, hft]
  rfl

/-- Re-normalizing a stored bool under a boolean field is the identity. -/
theorem renorm_bool (d : Record) (f : FieldDefinition) (b : Bool)
    (hft : f.type = FieldType.boolean) (h2 : getV d f.name = some (Value.bool b)) :
    SchemaValidator.normEntry d f = some (Value.bool b) := by
  unfold SchemaValidator.normEntry
  rw [h2, hft]
  rfl

/-- Re-normalizing a stored string under a text field is the identity. -/
theorem renorm_text (d : Record) (f : FieldDefinition) (t : String)
    (hft : f.type = FieldType.text) (h2 : getV d f.name = some (Value.str t)) :
    SchemaValidator.normEntry d f = some (Value.str t) := by
  unfold SchemaValidator.normEntry
  rw [h2, hft]
  rfl

/-- The required/None fallback of normEntry produces a value only for
required fields, and that value is None. -/
theorem shape_of_required_if (f : FieldDefinition) (w : Value)
    (h : (if f.required = true then some Value.none else Option.none) = some w) :
    f.required = true ∧ w = Value.none := by
  cases hreq : f.required with
  | false =>
    rw [hreq] at h
    simp at h
  | true =>
    rw [hreq] at h
    have h4 : some Value.none = some w := h
    exact ⟨rfl, (Option.some.inj h4).symm⟩

/-- Shape of every value normEntry can emit: None for a required field, or
a value of the constructor matching the field type. -/
theorem normEntry_out_shape (data : Record) (f : FieldDefinition) (w : Value)
    (h : SchemaValidator.normEntry data f = some w) :
    (f.required = true ∧ w = Value.none) ∨
    (f.type = FieldType.integer ∧ ∃ n, w = Value.int n) ∨
    (f.type = FieldType.decimal ∧ ∃ q, w = Value.float q) ∨
    (f.type = FieldType.boolean ∧ ∃ b, w = Value.bool b) ∨
    (f.type = FieldType.text ∧ ∃ t, w = Value.str t) := by
  unfold SchemaValidator.normEntry at h
  cases hget : getV data f.name with
  | none =>
    rw [hget] at h
    have h4 : (Option.none : Option Value) = some w := h
    cases h4
  | some v0 =>
    rw [hget] at h
    dsimp only at h
    cases hft : f.type with
    | integer =>
      rw [hft] at h
      cases hu : SchemaValidator.unwrapValueDict v0 with
      | none =>
        rw [hu] at h
        exact Or.inl (shape_of_required_if f w h)
      | int n =>
        rw [hu] at h
        have h3 : some (Value.int n) = some w := h
        exact Or.inr (Or.inl ⟨rfl, n, (Option.some.inj h3).symm⟩)
      | float q =>
        rw [hu] at h
        have h3 : some (Value.int (Int.tdiv q.num (q.den : Int))) = some w := h
        exact Or.inr (Or.inl ⟨rfl, _, (Option.some.inj h3).symm⟩)
      | bool b =>
        rw [hu] at h
        have h3 : some (Value.int (if b then 1 else 0)) = some w := h
        exact Or.inr (Or.inl ⟨rfl, _, (Option.some.inj h3).symm⟩)
      | dict l =>
        rw [hu] at h
        exact Or.inl (shape_of_required_if f w h)
      | str s =>
        rw [hu] at h
        dsimp only at h
        cases hc : SchemaValidator.normIntCoerce (Value.str s) with
        | some n =>
          rw [hc] at h
          have h3 : some (Value.int n) = some w := h
          exact Or.inr (Or.inl ⟨rfl, _, (Option.some.inj h3).symm⟩)
        | none =>
          rw [hc] at h
          exact Or.inl (shape_of_required_if f w h)
    | decimal =>
      rw [hft] at h
      cases hu : SchemaValidator.unwrapValueDict v0 with
      | none =>
        rw [hu] at h
        exact Or.inl (shape_of_required_if f w h)
      | int n =>
        rw [hu] at h
        have h3 : some (Value.float (n : Rat)) = some w := h
        exact Or.inr (Or.inr (Or.inl ⟨rfl, _, (Option.some.inj h3).symm⟩))
      | float q =>
        rw [hu] at h
        have h3 : some (Value.float q) = some w := h
        exact Or.inr (Or.inr (Or.inl ⟨rfl, _, (Option.some.inj h3).symm⟩))
      | bool b =>
        rw [hu] at h
        have h3 : some (Value.float (if b then 1 else 0)) = some w := h
        exact Or.inr (Or.inr (Or.inl ⟨rfl, _, (Option.some.inj h3).symm⟩))
      | dict l =>
        rw [hu] at h
        exact Or.inl (shape_of_required_if f w h)
      | str s =>
        rw [hu] at h
        dsimp only at h
        cases hc : SchemaValidator.normDecCoerce (Value.str s) with
        | some q =>
          rw [hc] at h
          have h3 : some (Value.float q) = some w := h
          exact Or.inr (Or.inr (Or.inl ⟨rfl, _, (Option.some.inj h3).symm⟩))
        | none =>
          rw [hc] at h
          exact Or.inl (shape_of_required_if f w h)
    | boolean =>
      rw [hft] at h
      cases hu : SchemaValidator.unwrapValueDict v0 with
      | none =>
        rw [hu] at h
        exact Or.inl (shape_of_required_if f w h)
      | int n =>
        rw [hu] at h
        have h3 : some (Value.bool (pyTruthy (Value.int n))) = some w := h
        exact Or.inr (Or.inr (Or.inr (Or.inl ⟨rfl, _, (Option.some.inj h3).symm⟩)))
      | float q =>
        rw [hu] at h
        have h3 : some (Value.bool (pyTruthy (Value.float q))) = some w := h
        exact Or.inr (Or.inr (Or.inr (Or.inl ⟨rfl, _, (Option.some.inj h3).symm⟩)))
      | bool b =>
        rw [hu] at h
        have h3 : some (Value.bool b) = some w := h
        exact Or.inr (Or.inr (Or.inr (Or.inl ⟨rfl, _, (Option.some.inj h3).symm⟩)))
      | dict l =>
        rw [hu] at h
        have h3 : some (Value.bool (pyTruthy (Value.dict l))) = some w := h
        exact Or.inr (Or.inr (Or.inr (Or.inl ⟨rfl, _, (Option.some.inj h3).symm⟩)))
      | str s =>
        rw [hu] at h
        have h3 : some (Value.bool (pyTruthy (Value.str s))) = some w := h
        exact Or.inr (Or.inr (Or.inr (Or.inl ⟨rfl, _, (Option.some.inj h3).symm⟩)))
    | text =>
      rw [hft] at h
      cases hu : SchemaValidator.unwrapValueDict v0 with
      | none =>
        rw [hu] at h
        exact Or.inl (shape_of_required_if f w h)
      | int n =>
        rw [hu] at h
        have h3 : some (Value.str (pyStr (Value.int n))) = some w := h
        exact Or.inr (Or.inr (Or.inr (Or.inr ⟨rfl, _, (Option.some.inj h3).symm⟩)))
      | float q =>
        rw [hu] at h
        have h3 : some (Value.str (pyStr (Value.float q))) = some w := h
        exact Or.inr (Or.inr (Or.inr (Or.inr ⟨rfl, _, (Option.some.inj h3).symm⟩)))
      | bool b =>
        rw [hu] at h
        have h3 : some (Value.str (pyStr (Value.bool b))) = some w := h
        exact Or.inr (Or.inr (Or.inr (Or.inr ⟨rfl, _, (Option.some.inj h3).symm⟩)))
      | dict l =>
        rw [hu] at h
        have h3 : some (Value.str (pyStr (Value.dict l))) = some w := h
        exact Or.inr (Or.inr (Or.inr (Or.inr ⟨rfl, _, (Option.some.inj h3).symm⟩)))
      | str s =>
        rw [hu] at h
        have h3 : some (Value.str (pyStr (Value.str s))) = some w := h
        exact Or.inr (Or.inr (Or.inr (Or.inr ⟨rfl, _, (Option.some.inj h3).symm⟩)))

/-- Values emitted by normEntry are fixed points: storing the output back
under the same field and re-normalizing returns the same value. -/
theorem normEntry_stable (data data2 : Record) (f : FieldDefinition) (w : Value)
    (h : SchemaValidator.normEntry data f = some w)
    (h2 : getV data2 f.name = some w) :
    SchemaValidator.normEntry data2 f = some w := by
  rcases normEntry_out_shape data f w h with
    ⟨hreq, hw⟩ | ⟨hft, n, hw⟩ | ⟨hft, q, hw⟩ | ⟨hft, b, hw⟩ | ⟨hft, t, hw⟩
  · subst hw; exact renorm_none data2 f hreq h2
  · subst hw; exact renorm_int data2 f n hft h2
  · subst hw; exact renorm_float data2 f q hft h2
  · subst hw; exact renorm_bool data2 f b hft h2
  · subst hw; exact renorm_text data2 f t hft h2

/-- Under unique field names, per-field normalization of an already
normalized record agrees with normalizing the raw record. -/
theorem normEntry_renorm (data : Record) (s : ProductSchema) (f : FieldDefinition)
    (hf : f ∈ s.fields) (hn : (s.fields.map FieldDefinition.name).Nodup) :
    SchemaValidator.normEntry (SchemaValidator.normalize_data data s) f =
      SchemaValidator.normEntry data f := by
  have hget := normalize_data_get data s f hf hn
  cases hE : SchemaValidator.normEntry data f with
  | none =>
    rw [hE] at hget
    unfold SchemaValidator.normEntry
    rw [hget]
  | some w =>
    rw [hE] at hget
    exact normEntry_stable data (SchemaValidator.normalize_data data s) f w hE hget

/-- C4: normalize_data is idempotent for schemas whose field names are
pairwise distinct: normalizing an already normalized record changes
nothing, because every value the normalizer writes re-coerces to itself
under its own field. (With duplicate field names idempotence fails; see
the counterexample.) -/
theorem normalize_data_idempotent (data : Record) (s : ProductSchema)
    (hn : (s.fields.map FieldDefinition.name).Nodup) :
    SchemaValidator.normalize_data (SchemaValidator.normalize_data data s) s =
      SchemaValidator.normalize_data data s := by
  rw [normalize_data_eq_filterMap (SchemaValidator.normalize_data data s) s hn]
  conv_rhs => rw [normalize_data_eq_filterMap data s hn]
  refine List.filterMap_congr ?_
  intro f hf
  rw [normEntry_renorm data s f hf hn]

/-- C4 witness schema: distinct field names, one coercing decimal field. -/
def sC4w : ProductSchema :=
  { fields := [ { name := "price", type := FieldType.decimal },
                { name := "label", type := FieldType.text, required := false } ] }

/-- C4 witness record. -/
def rC4w : Record := [("price", Value.str "19.99"), ("label", Value.str "Widget")]

/-- C4 witness: idempotence at a concrete schema and record. -/
theorem normalize_data_idempotent_witness :
    SchemaValidator.normalize_data (SchemaValidator.normalize_data rC4w sC4w) sC4w =
      SchemaValidator.normalize_data rC4w sC4w :=
  normalize_data_idempotent rC4w sC4w (by decide)

/-- C4 counterexample schema: the same field name declared twice, first as
required text, then as optional integer. -/
def schemaC4X : ProductSchema :=
  { fields := [ { name := "f", type := FieldType.text, required := true },
                { name := "f", type := FieldType.integer, required := false } ] }

/-- C4 counterexample record: a dict payload without a value key. -/
def recC4X : Record := [("f", Value.dict [("a", Value.int 1)])]

/-- C4 counterexample: with a duplicated field name, one normalization
stringifies the dict (the optional integer pass is skipped on the raw
dict), but a second normalization extracts the digit from that repr
string and overwrites the text with an int, so the results differ. -/
theorem normalize_data_idempotent_counterexample :
    SchemaValidator.normalize_data recC4X schemaC4X
        = [("f", Value.str "\x7b\x27a\x27: 1\x7d")] ∧
    SchemaValidator.normalize_data
        (SchemaValidator.normalize_data recC4X schemaC4X) schemaC4X
        = [("f", Value.int 1)] ∧
    recordsEqB
      (SchemaValidator.normalize_data
        (SchemaValidator.normalize_data recC4X schemaC4X) schemaC4X)
      (SchemaValidator.normalize_data recC4X schemaC4X) = false :=
  ⟨rfl, rfl, rfl⟩

/-- C1: under unique field names, normalization never introduces
validation errors: if the raw record validates cleanly, so does its
normalization. (The reverse direction of the claim fails: normalization
can erase errors by dropping uncoercible optional fields; and with
duplicate field names even this forward direction fails. See the
counterexample.) -/
theorem normalize_preserves_valid (data : Record) (s : ProductSchema)
    (hn : (s.fields.map FieldDefinition.name).Nodup)
    (hv : (SchemaValidator.validate_data_against_schema data s).2 = []) :
    (SchemaValidator.validate_data_against_schema
        (SchemaValidator.normalize_data data s) s).2 = [] := by
  rcases (validate_errors_nil_iff data s).mp hv with ⟨hreq, hty⟩
  refine (validate_errors_nil_iff _ s).mpr ⟨?_, ?_⟩
  · intro f hf hfr
    have hget := normalize_data_get data s f hf hn
    have hk := hreq f hf hfr
    unfold hasKey at hk
    cases hv0 : getV data f.name with
    | none =>
      rw [hv0] at hk
      simp at hk
    | some v =>
      have htv := hty f hf v hv0
      rcases normEntry_some_of_typeOk data f v hv0 htv with ⟨w, hw, hwty⟩
      unfold hasKey
      rw [hget, hw]
      rfl
  · intro f hf v2 hv2
    have hget := normalize_data_get data s f hf hn
    rw [hget] at hv2
    cases hv0 : getV data f.name with
    | none =>
      unfold SchemaValidator.normEntry at hv2
      rw [hv0] at hv2
      have h4 : (Option.none : Option Value) = some v2 := hv2
      cases h4
    | some v =>
      have htv := hty f hf v hv0
      rcases normEntry_some_of_typeOk data f v hv0 htv with ⟨w, hw, hwty⟩
      rw [hw] at hv2
      have hww := Option.some.inj hv2
      rw [← hww]
      exact hwty

/-- C1 witness schema: one required decimal field with a unique name. -/
def sC1w : ProductSchema :=
  { fields := [ { name := "price", type := FieldType.decimal } ] }

/-- C1 witness record: the field present and numeric. -/
def rC1w : Record := [("price", Value.float 10)]

/-- C1 witness: a cleanly validating record still validates cleanly after
normalization. -/
theorem normalize_preserves_valid_witness :
    (SchemaValidator.validate_data_against_schema
        (SchemaValidator.normalize_data rC1w sC1w) sC1w).2 = [] :=
  normalize_preserves_valid rC1w sC1w (by decide) rfl

/-- C1 counterexample schema (error-erasing direction): one optional
decimal field. -/
def sC1a : ProductSchema :=
  { fields := [ { name := "f", type := FieldType.decimal, required := false } ] }

/-- C1 counterexample record: an uncoercible string in the optional
field. -/
def rC1a : Record := [("f", Value.str "abc")]

/-- C1 counterexample schema (error-introducing direction): the same field
name declared as required text and as optional integer. -/
def sC1b : ProductSchema :=
  { fields := [ { name := "n", type := FieldType.text, required := true },
                { name := "n", type := FieldType.integer, required := false } ] }

/-- C1 counterexample record for the duplicate-name schema. -/
def rC1b : Record := [("n", Value.str "5")]

/-- C1 counterexample: the claimed equivalence fails in both directions.
An invalid record becomes valid (the optional uncoercible field is
dropped by normalize_data, erasing its type error), and with duplicate
field names a valid record becomes invalid (the integer pass overwrites
the text field with an int that then fails the text check). -/
theorem validate_normalize_iff_counterexample :
    ((SchemaValidator.validate_data_against_schema rC1a sC1a).2 ≠ [] ∧
     (SchemaValidator.validate_data_against_schema
        (SchemaValidator.normalize_data rC1a sC1a) sC1a).2 = []) ∧
    ((SchemaValidator.validate_data_against_schema rC1b sC1b).2 = [] ∧
     (SchemaValidator.validate_data_against_schema
        (SchemaValidator.normalize_data rC1b sC1b) sC1b).2 ≠ []) := by
  refine ⟨⟨?_, rfl⟩, rfl, ?_⟩ <;> decide

end CEE
